import Mathlib

/-!
Verification of the caseload job engine in
`src/routes/API/engagement/caseload/+server.ts` and the shared client in
`src/lib/server/intercom.ts`, as a shallow embedding:

* times are modelled as integers (milliseconds) resp. rationals (unix
  seconds with possibly fractional day arithmetic);
* JavaScript `Map`/`Set` values are modelled as insertion-ordered
  association lists / lists without duplicates;
* the remote Intercom API is modelled as an oracle: a list of replies
  consumed in order, each carrying a duration (ms) and either a payload,
  an abort (timeout), or an HTTP error;
* one `stepJob` invocation is a pure function from (oracle, wall-clock
  time, job state) to (job state, response, trace of started outbound
  calls, final time).
-/

namespace Caseload

/-- Source `SECONDS_PER_DAY`. -/
def SECONDS_PER_DAY : ℤ := 24 * 60 * 60

/-- Source `MAX_RETRIES`. -/
def MAX_RETRIES : ℕ := 3

/-- Source `STEP_BUDGET_MS`. -/
def STEP_BUDGET_MS : ℤ := 20000

/-- Source `STEP_SAFETY_MS`. -/
def STEP_SAFETY_MS : ℤ := 1250

/-- Source `MIN_TIME_TO_START_REQUEST_MS`. -/
def MIN_TIME_TO_START_REQUEST_MS : ℤ := 4500

/-- Source `JOB_TTL_MS`. -/
def JOB_TTL_MS : ℤ := 10 * 60 * 1000

/-- Source `ADMIN_CACHE_TTL_MS`. -/
def ADMIN_CACHE_TTL_MS : ℤ := 10 * 60 * 1000

/-- Source `CONTACT_CACHE_TTL_MS`. -/
def CONTACT_CACHE_TTL_MS : ℤ := 60 * 60 * 1000

/-- Source `CONTACT_CHUNK_SIZE`. -/
def CONTACT_CHUNK_SIZE : ℕ := 15

/-- Source `SESSION_CHANNELS`. -/
def SESSION_CHANNELS : List String := ["Phone", "Video Conference", "Email", "Chat"]

/-- Source `JobStatus`. -/
inductive JobStatus where
  | queued | running | complete | error | cancelled
deriving DecidableEq, Repr

/-- Source `JobPhase`. -/
inductive JobPhase where
  | conversations | contacts | finalize | complete
deriving DecidableEq, Repr

/-- Source `SessionRow` (`time` in unix seconds, `0` standing for
a JS falsy/absent timestamp). -/
structure SessionRow where
  memberId : String
  coachId : Option String
  channel : String
  time : ℕ
deriving DecidableEq, Repr

/-- Source `MemberBuckets`. -/
structure MemberBuckets where
  bucket_1 : Bool
  bucket_2 : Bool
  bucket_3 : Bool
  bucket_4 : Bool
deriving DecidableEq, Repr

/-- Source `CaseloadSummary`. -/
structure CaseloadSummary where
  bucket_1 : ℕ
  bucket_2 : ℕ
  bucket_3 : ℕ
  bucket_4 : ℕ
deriving DecidableEq, Repr

/-- Source `AdminInfo`. -/
structure AdminInfo where
  id : String
  name : Option String
  email : Option String
deriving DecidableEq, Repr

/-- Source `MemberAgg`; the JS `Set`s are insertion-ordered
duplicate-free lists. -/
structure MemberAgg where
  lastSessionAt : ℕ
  channels : List String
  coachIds : List String
deriving DecidableEq, Repr

/-- A hydrated contact as the caseload code uses it: `id`, `name`,
`email`, the `Employer` custom attribute, and the `_notFound` marker of
negative-cache placeholders. -/
structure Contact where
  id : String
  name : Option String
  email : Option String
  attrsClient : Option String
  notFound : Bool
deriving DecidableEq, Repr

/-- Source `JobContactCacheEntry`. -/
structure JobContactCacheEntry where
  expiresAtMs : ℤ
  contact : Contact
deriving DecidableEq, Repr

/-- Source `CaseloadMemberRow`. -/
structure CaseloadMemberRow where
  memberId : String
  memberName : Option String
  memberEmail : Option String
  client : Option String
  coachIds : List String
  coachNames : List String
  channelsUsed : List String
  channelCombo : String
  lastSessionAt : ℕ
  daysSinceLastSession : ℚ
  buckets : MemberBuckets
deriving DecidableEq, Repr

/-- JS `Map` lookup on an insertion-ordered association list. -/
def lookupA {α : Type} : List (String × α) → String → Option α
  | [], _ => none
  | (k', v) :: rest, k => if k' = k then some v else lookupA rest k

/-- JS `Map.set`: replace in place when the key exists, else append. -/
def setA {α : Type} : List (String × α) → String → α → List (String × α)
  | [], k, v => [(k, v)]
  | (k', v') :: rest, k, v =>
      if k' = k then (k', v) :: rest else (k', v') :: setA rest k v

/-- JS `Map.delete`. -/
def eraseA {α : Type} : List (String × α) → String → List (String × α)
  | [], _ => []
  | (k', v') :: rest, k => if k' = k then rest else (k', v') :: eraseA rest k

/-- JS `Set.add`: append if absent. -/
def setAdd (l : List String) (a : String) : List String :=
  if a ∈ l then l else l ++ [a]

/-- JS `[...new Set(ids)]`: dedup keeping the first occurrence, in order. -/
def jsSetDedup (l : List String) : List String :=
  l.foldl setAdd []

/-- Source `computeBuckets` (`daysSince` is the exact value of the
JS float division; the comparisons only depend on its order against
7/28/56). -/
def computeBuckets (daysSince : ℚ) : MemberBuckets :=
  { bucket_1 := decide (daysSince ≤ 7)
    bucket_2 := decide (7 < daysSince ∧ daysSince ≤ 28)
    bucket_3 := decide (28 < daysSince ∧ daysSince ≤ 56)
    bucket_4 := decide (56 < daysSince) }

/-- The caseload contact cache: JS `Map<string, JobContactCacheEntry>`. -/
def Cache : Type := List (String × JobContactCacheEntry)

instance : DecidableEq Cache := by unfold Cache; infer_instance

instance : Repr Cache := by unfold Cache; infer_instance

/-- Source `getCachedContact`: an expired entry is evicted and
reported as a miss; the (possibly updated) cache is returned alongside. -/
def getCachedContact (nowMs : ℤ) (cache : Cache) (id : String) :
    Option Contact × Cache :=
  match lookupA cache id with
  | none => (none, cache)
  | some entry =>
      if nowMs > entry.expiresAtMs then (none, eraseA cache id)
      else (some entry.contact, cache)

/-- Source `setCachedContact`: a falsy id is a no-op. -/
def setCachedContact (nowMs : ℤ) (cache : Cache) (contact : Contact) : Cache :=
  if contact.id = "" then cache
  else setA cache contact.id
    { expiresAtMs := nowMs + CONTACT_CACHE_TTL_MS, contact := contact }

/-- Source `setNotFoundContact`: caches a `_notFound` placeholder
with the same TTL as a real record. -/
def setNotFoundContact (nowMs : ℤ) (cache : Cache) (id : String) : Cache :=
  if id = "" then cache
  else setA cache id
    { expiresAtMs := nowMs + CONTACT_CACHE_TTL_MS
      contact := { id := id, name := none, email := none,
                   attrsClient := none, notFound := true } }

/-- JS `a || b` on timestamps where `0` is the falsy/absent value. -/
def jsOr (a b : ℕ) : ℕ := if a = 0 then b else a

/-- A conversation as read by `parseSessionFromConversation`: the
`Channel` custom attribute, the contact id list, the `statistics`
timestamps and `updated_at`/`created_at` (with `0` for unset), and
`admin_assignee_id`. -/
structure Conv where
  channel : Option String
  contactIds : List String
  last_close_at : ℕ
  last_admin_reply_at : ℕ
  updated_at : ℕ
  created_at : ℕ
  admin_assignee_id : Option String
deriving DecidableEq, Repr

/-- Source `parseSessionFromConversation`. -/
def parseSessionFromConversation (conv : Conv) : Option SessionRow :=
  match conv.channel with
  | none => none
  | some channelValue =>
    if channelValue = "" then none
    else if channelValue ∈ SESSION_CHANNELS then
      match conv.contactIds with
      | [] => none
      | cid :: _ =>
        let sessionTime :=
          jsOr conv.last_close_at
            (jsOr conv.last_admin_reply_at (jsOr conv.updated_at conv.created_at))
        if sessionTime = 0 then none
        else some { memberId := cid, coachId := conv.admin_assignee_id,
                    channel := channelValue, time := sessionTime }
    else none

/-- The update `upsertMemberAgg` performs of the `memberAgg` map for one
session. JS guards the coach insertion with `if (s.coachId)`, which is
false both for `null` and for the empty string (a falsy value), so a
`some ""` coach id is skipped. -/
def upsertAgg (aggs : List (String × MemberAgg)) (s : SessionRow) :
    List (String × MemberAgg) :=
  let agg := (lookupA aggs s.memberId).getD
    { lastSessionAt := 0, channels := [], coachIds := [] }
  setA aggs s.memberId
    { lastSessionAt := if s.time > agg.lastSessionAt then s.time else agg.lastSessionAt
      channels := setAdd agg.channels s.channel
      coachIds :=
        match s.coachId with
        | some k => if k = "" then agg.coachIds else setAdd agg.coachIds k
        | none => agg.coachIds }

/-- Source `CaseloadJobState` (the fields the job engine reads
and writes; audit-logging-only fields are omitted). -/
structure Job where
  id : String
  lookbackDays : ℚ
  sinceUnix : ℚ
  untilUnix : Option ℚ
  untilLookbackDays : Option ℚ
  status : JobStatus
  phase : JobPhase
  createdAtMs : ℤ
  updatedAtMs : ℤ
  error : Option String
  startingAfter : Option String
  pagesFetched : ℕ
  conversationsFetched : ℕ
  sessionsCount : ℕ
  memberIds : List String
  memberAgg : List (String × MemberAgg)
  sessions : List SessionRow
  adminCache : Option (ℤ × List (String × AdminInfo))
  contactCache : Cache
  consecutiveAbortErrors : ℕ
  generatedAt : Option ℤ
  totalMembers : Option ℕ
  summary : Option CaseloadSummary
  members : Option (List CaseloadMemberRow)
deriving DecidableEq, Repr

/-- Source `upsertMemberAgg`: updates the aggregate map and the
seen-id set of the job. -/
def upsertMemberAgg (job : Job) (s : SessionRow) : Job :=
  { job with
      memberAgg := upsertAgg job.memberAgg s
      memberIds := setAdd job.memberIds s.memberId }

/-- The payload of a successful remote reply, duck-typed as the code
reads it: admin listings read `admins`, conversation searches read
`conversations`/`pages.next.starting_after`, contact searches read
`data`. -/
structure ReplyData where
  admins : List AdminInfo := []
  conversations : List Conv := []
  nextCursor : Option String := none
  contacts : List Contact := []
deriving DecidableEq, Repr

/-- One oracle entry: what the remote API does for the next outbound
call. Each carries the call's wall-clock duration in milliseconds. -/
inductive RemoteReply where
  | okReply (durMs : ℕ) (data : ReplyData)
  | abortErr (durMs : ℕ)
  | httpErr (durMs : ℕ) (msg : String)
deriving DecidableEq, Repr

/-- Duration of an oracle reply. -/
def RemoteReply.durMs : RemoteReply → ℕ
  | .okReply d _ => d
  | .abortErr d => d
  | .httpErr d _ => d

/-- Which call site started an outbound call. -/
inductive CallKind where
  | adminsWarm | convSearch | contactsSearch | adminsFinal
deriving DecidableEq, Repr

/-- A started outbound call, recorded with `timeLeftMs(deadlineMs)` at
the moment the call was started. -/
structure CallEvent where
  kind : CallKind
  timeLeft : ℤ
deriving DecidableEq, Repr

/-- The mutable context threaded through one step: the unconsumed oracle,
the wall clock (`Date.now()` in ms), the job, and the call trace. -/
structure MachineState where
  env : List RemoteReply
  now : ℤ
  job : Job
  trace : List CallEvent
deriving DecidableEq, Repr

/-- The classification the step code applies to a caught exception
(`isAbortError`). -/
inductive ErrKind where
  | abortE
  | remoteE (msg : String)
deriving DecidableEq, Repr

/-- Control flow inside the step's `try` block: either run on, or an
exception is propagating. -/
inductive Flow where
  | ok (s : MachineState)
  | thrown (s : MachineState) (e : ErrKind)
deriving DecidableEq, Repr

/-- The state carried by a `Flow`, whichever constructor. -/
def Flow.state : Flow → MachineState
  | .ok s => s
  | .thrown s _ => s

/-- Exception propagation: a thrown flow skips the rest of the `try`
block. -/
def bindFlow (f : Flow) (g : MachineState → Flow) : Flow :=
  match f with
  | .ok s => g s
  | .thrown s e => .thrown s e

/-- Error message surfaced for each error kind (`err.message`). -/
def ErrKind.message : ErrKind → String
  | .abortE => "Intercom request aborted"
  | .remoteE m => m

/-- The freshness test `adminCache && now - adminCache.fetchedAtMs < ADMIN_CACHE_TTL_MS`. -/
def adminCacheFresh (now : ℤ) : Option (ℤ × List (String × AdminInfo)) → Bool
  | some (t, _) => decide (now - t < ADMIN_CACHE_TTL_MS)
  | none => false

/-- Start an outbound call: record a `CallEvent` with the time left
before `deadline`, consume the oracle head and advance the clock by the
reply's duration. An exhausted oracle behaves as an HTTP error. -/
def callRemote (kind : CallKind) (deadline : ℤ) (s : MachineState) :
    RemoteReply × MachineState :=
  let ev : CallEvent := { kind := kind, timeLeft := deadline - s.now }
  match s.env with
  | [] => (.httpErr 0 "no reply",
           { s with trace := s.trace ++ [ev] })
  | r :: rest =>
      (r, { env := rest, now := s.now + r.durMs, job := s.job,
            trace := s.trace ++ [ev] })

/-- Source `fetchAdminsCached`: return the cached admin map if
fetched less than `ADMIN_CACHE_TTL_MS` ago, else issue a `GET /admins`
and cache the result keyed by the pre-call clock. -/
def fetchAdminsCached (kind : CallKind) (deadline : ℤ) (s : MachineState) : Flow :=
  if adminCacheFresh s.now s.job.adminCache then .ok s
  else
    let (r, s1) := callRemote kind deadline s
    match r with
    | .abortErr _ => .thrown s1 .abortE
    | .httpErr _ m => .thrown s1 (.remoteE m)
    | .okReply _ data =>
        let m := data.admins.foldl (fun acc a => setA acc a.id a) []
        .ok { s1 with job := { s1.job with adminCache := some (s.now, m) } }

/-- The per-page bookkeeping of the conversations loop body on a
successful `conversations.search` reply: reset the abort counter, bump
the page/conversation counters, fold every parsed session into the
accumulators, and store the next cursor. -/
def processPage (job : Job) (convs : List Conv) (nextCursor : Option String) : Job :=
  let ss := convs.filterMap parseSessionFromConversation
  { job with
      consecutiveAbortErrors := 0
      pagesFetched := job.pagesFetched + 1
      conversationsFetched := job.conversationsFetched + convs.length
      sessions := job.sessions ++ ss
      sessionsCount := job.sessionsCount + ss.length
      memberAgg := ss.foldl upsertAgg job.memberAgg
      memberIds := ss.foldl (fun l s => setAdd l s.memberId) job.memberIds
      startingAfter := nextCursor }

/-- The `while` loop of the conversations phase: stop when the deadline
is closer than `MIN_TIME_TO_START_REQUEST_MS`; otherwise fetch one page.
A success folds the page and either advances the phase (cursor
exhausted), stops on an empty page with a cursor, or loops. An abort
bumps the consecutive-abort counter, rethrowing at 3, else ends the
step early. Any other error rethrows. -/
def convLoop (deadline : ℤ) :
    List RemoteReply → ℤ → Job → List CallEvent → Flow
  | [], now, job, trace =>
      if deadline - now < MIN_TIME_TO_START_REQUEST_MS then
        .ok { env := [], now := now, job := job, trace := trace }
      else
        .thrown { env := [], now := now, job := job,
                  trace := trace ++ [⟨.convSearch, deadline - now⟩] }
          (.remoteE "no reply")
  | r :: rest, now, job, trace =>
      if deadline - now < MIN_TIME_TO_START_REQUEST_MS then
        .ok { env := r :: rest, now := now, job := job, trace := trace }
      else
        let tr := trace ++ [⟨.convSearch, deadline - now⟩]
        match r with
        | .abortErr d =>
            let j := { job with
                         consecutiveAbortErrors := job.consecutiveAbortErrors + 1 }
            if 3 ≤ j.consecutiveAbortErrors then
              .thrown { env := rest, now := now + d, job := j, trace := tr } .abortE
            else
              .ok { env := rest, now := now + d, job := j, trace := tr }
        | .httpErr d m =>
            .thrown { env := rest, now := now + d, job := job, trace := tr }
              (.remoteE m)
        | .okReply d data =>
            let j1 := processPage job data.conversations data.nextCursor
            match data.nextCursor with
            | none =>
                .ok { env := rest, now := now + d,
                      job := { j1 with phase := .contacts }, trace := tr }
            | some _ =>
                if data.conversations.isEmpty then
                  .ok { env := rest, now := now + d, job := j1, trace := tr }
                else
                  convLoop deadline rest (now + d) j1 tr

/-- The `missing.filter((id) => !getCachedContact(job, id))` pass:
collects ids with no live cache entry, threading the evictions the reads
perform. -/
def filterMissing (nowMs : ℤ) (cache : Cache) :
    List String → List String × Cache
  | [] => ([], cache)
  | id :: rest =>
      let (c, cache1) := getCachedContact nowMs cache id
      let (l, cache2) := filterMissing nowMs cache1 rest
      match c with
      | none => (id :: l, cache2)
      | some _ => (l, cache2)

/-- The count of `job.memberIds` entries with no live cache entry,
threading evictions (used for `remaining` and `missingContacts`). -/
def countMissingFrom (nowMs : ℤ) (cache : Cache) :
    List String → ℕ × Cache
  | [] => (0, cache)
  | id :: rest =>
      let (c, cache1) := getCachedContact nowMs cache id
      let (n, cache2) := countMissingFrom nowMs cache1 rest
      ((if c.isNone then 1 else 0) + n, cache2)

/-- The chunked `for` loop of `hydrateContactsByIds`, with an explicit
structural fuel (each round drops a whole non-empty chunk, so
`missing.length` rounds always suffice and the fuel-exhausted branch is
unreachable from `hydrateLoop`): stop before a chunk if the deadline is
closer than `MIN_TIME_TO_START_REQUEST_MS`; otherwise search one `IN`
chunk of at most `CONTACT_CHUNK_SIZE` ids, cache every returned contact
and a not-found placeholder for every id the reply omitted, and continue
with the rest. -/
def hydrateGo (deadline : ℤ) : ℕ → List String → MachineState → Flow
  | _, [], s => .ok s
  | 0, _ :: _, s => .ok s
  | fuel + 1, id0 :: rest0, s =>
    if deadline - s.now < MIN_TIME_TO_START_REQUEST_MS then .ok s
    else
      let chunk := (id0 :: rest0).take CONTACT_CHUNK_SIZE
      let (r, s1) := callRemote .contactsSearch deadline s
      match r with
      | .abortErr _ => .thrown s1 .abortE
      | .httpErr _ m => .thrown s1 (.remoteE m)
      | .okReply _ data =>
          let contacts := data.contacts
          let returnedIds := (contacts.map Contact.id).filter (fun i => i ≠ "")
          let cache1 := contacts.foldl (fun c k => setCachedContact s1.now c k)
            s1.job.contactCache
          let cache2 := chunk.foldl
            (fun c id => if id ∈ returnedIds then c else setNotFoundContact s1.now c id)
            cache1
          hydrateGo deadline fuel ((id0 :: rest0).drop CONTACT_CHUNK_SIZE)
            { s1 with job := { s1.job with contactCache := cache2 } }

/-- The chunk loop entry point: run `hydrateGo` with enough fuel. -/
def hydrateLoop (deadline : ℤ) (missing : List String) (s : MachineState) : Flow :=
  hydrateGo deadline missing.length missing s

/-- Result of `hydrateContactsByIds`: either the machine state plus the
`remaining` count, or a propagating exception. -/
inductive HydrateOut where
  | okH (s : MachineState) (remaining : ℕ)
  | errH (s : MachineState) (e : ErrKind)
deriving DecidableEq, Repr

/-- JS `[...new Set(ids)].filter(Boolean).map(String)`. -/
def uniqueIds (ids : List String) : List String :=
  (jsSetDedup ids).filter (fun i => i ≠ "")

/-- Source `hydrateContactsByIds`: dedup and drop falsy ids,
keep only the uncached ones, run the chunk loop, then recount how many
member ids are still unresolved. -/
def hydrateContactsByIds (deadline : ℤ) (ids : List String) (s : MachineState) :
    HydrateOut :=
  let unique := uniqueIds ids
  let (missing, cache1) := filterMissing s.now s.job.contactCache unique
  let s1 : MachineState := { s with job := { s.job with contactCache := cache1 } }
  if missing.isEmpty then .okH s1 0
  else
    match hydrateLoop deadline missing s1 with
    | .thrown s2 e => .errH s2 e
    | .ok s2 =>
        let (remaining, cache2) :=
          countMissingFrom s2.now s2.job.contactCache s2.job.memberIds
        .okH { s2 with job := { s2.job with contactCache := cache2 } } remaining

/-- The contacts phase of `stepJob`: hydrate all seen member ids; on
success reset the abort counter and advance to `finalize` once none
remain unresolved; on an abort bump the counter, rethrowing at 3, else
end the step early; rethrow anything else. -/
def contactsPhase (deadline : ℤ) (s : MachineState) : Flow :=
  if s.job.phase = .contacts then
    let ids := s.job.memberIds
    match hydrateContactsByIds deadline ids s with
    | .okH s1 remaining =>
        let j1 := { s1.job with consecutiveAbortErrors := 0 }
        let j2 := if remaining = 0 then { j1 with phase := .finalize } else j1
        .ok { s1 with job := j2 }
    | .errH s1 .abortE =>
        let j := { s1.job with
                     consecutiveAbortErrors := s1.job.consecutiveAbortErrors + 1 }
        if 3 ≤ j.consecutiveAbortErrors then
          .thrown { s1 with job := j } .abortE
        else
          .ok { s1 with job := j }
    | .errH s1 (.remoteE m) => .thrown s1 (.remoteE m)
  else .ok s

/-- A list insertion sort with the string order, for the JS
`Array.sort()` of channel and coach-id arrays. -/
def insertSorted (a : String) : List String → List String
  | [] => [a]
  | b :: rest => if a ≤ b then a :: b :: rest else b :: insertSorted a rest

/-- JS `Array.from(set).sort()`. -/
def sortStr (l : List String) : List String :=
  l.foldr insertSorted []

/-- The body of the finalize loop for one `memberAgg` entry (given what
the cache returned for the member): the fully hydrated result row. -/
def mkMemberRow (nowUnix : ℤ) (adminMap : List (String × AdminInfo))
    (memberId : String) (agg : MemberAgg) (copt : Option Contact) :
    CaseloadMemberRow :=
  let contact := copt.getD
    { id := "", name := none, email := none, attrsClient := none, notFound := false }
  let daysSinceLastSession : ℚ := (nowUnix - (agg.lastSessionAt : ℤ)) / 86400
  let channelsUsed := sortStr agg.channels
  let joined := String.intercalate " + " channelsUsed
  let coachIds := sortStr agg.coachIds
  { memberId := memberId
    memberName := contact.name
    memberEmail := contact.email
    client := contact.attrsClient
    coachIds := coachIds
    coachNames := coachIds.map (fun cid =>
      match lookupA adminMap cid with
      | some a => a.name.getD cid
      | none => cid)
    channelsUsed := channelsUsed
    channelCombo := if joined = "" then "(none)" else joined
    lastSessionAt := agg.lastSessionAt
    daysSinceLastSession := daysSinceLastSession
    buckets := computeBuckets daysSinceLastSession }

/-- The finalize loop over `job.memberAgg.entries()`: reads each member's
cached contact (threading evictions), skips members with a falsy
last-session time, and builds the result rows in order. -/
def buildMembers (nowUnix : ℤ) (nowMs : ℤ) (adminMap : List (String × AdminInfo)) :
    List (String × MemberAgg) → Cache → List CaseloadMemberRow × Cache
  | [], cache => ([], cache)
  | (memberId, agg) :: rest, cache =>
      let (copt, cache1) := getCachedContact nowMs cache memberId
      let (rows, cache2) := buildMembers nowUnix nowMs adminMap rest cache1
      if agg.lastSessionAt = 0 then (rows, cache2)
      else (mkMemberRow nowUnix adminMap memberId agg copt :: rows, cache2)

/-- The summary histogram fold from the finalize phase. -/
def summaryOf (rows : List CaseloadMemberRow) : CaseloadSummary :=
  rows.foldl
    (fun acc m =>
      { bucket_1 := acc.bucket_1 + (if m.buckets.bucket_1 then 1 else 0)
        bucket_2 := acc.bucket_2 + (if m.buckets.bucket_2 then 1 else 0)
        bucket_3 := acc.bucket_3 + (if m.buckets.bucket_3 then 1 else 0)
        bucket_4 := acc.bucket_4 + (if m.buckets.bucket_4 then 1 else 0) })
    { bucket_1 := 0, bucket_2 := 0, bucket_3 := 0, bucket_4 := 0 }

/-- The finalize phase of `stepJob`: capture the unix clock, refresh the
admin directory (note: without the minimum-time-to-start guard), build
the rows and summary, and freeze the result, moving to
`complete`/`complete`. -/
def finalizePhase (deadline : ℤ) (s : MachineState) : Flow :=
  if s.job.phase = .finalize then
    let nowUnix : ℤ := s.now.fdiv 1000
    match fetchAdminsCached .adminsFinal deadline s with
    | .thrown s1 e => .thrown s1 e
    | .ok s1 =>
        let adminMap := (s1.job.adminCache.map Prod.snd).getD []
        let (rows, cache1) :=
          buildMembers nowUnix s1.now adminMap s1.job.memberAgg s1.job.contactCache
        .ok { s1 with job := { s1.job with
                contactCache := cache1
                members := some rows
                summary := some (summaryOf rows)
                totalMembers := some rows.length
                generatedAt := some nowUnix
                phase := .complete
                status := .complete } }
  else .ok s

/-- The progress counters of a step/status snapshot. -/
structure Progress where
  pagesFetched : ℕ
  conversationsFetched : ℕ
  sessionsCount : ℕ
  uniqueMembers : ℕ
  missingContacts : ℕ
deriving DecidableEq, Repr

/-- The JSON body a `step` call answers with: either the progress shape
of a step that ran, or the short terminal shape (`done: true` with the
stored error). -/
inductive StepResponse where
  | progress (jobId : String) (status : JobStatus) (phase : JobPhase)
      (done : Bool) (lookbackDays : ℚ) (sinceUnix : ℚ) (p : Progress)
      (cursor : Option String)
  | terminal (jobId : String) (status : JobStatus) (phase : JobPhase)
      (error : Option String)
deriving DecidableEq, Repr

/-- The `missingContacts` recount at the end of a successful step,
threading cache evictions into the job. -/
def countMissing (nowMs : ℤ) (job : Job) : ℕ × Job :=
  let (n, cache) := countMissingFrom nowMs job.contactCache job.memberIds
  (n, { job with contactCache := cache })

/-- Everything one `stepJob` invocation produces: the updated job, the
response body, the trace of started outbound calls, the final clock and
the unconsumed oracle. -/
structure StepOut where
  job : Job
  resp : StepResponse
  trace : List CallEvent
  now : ℤ
  env : List RemoteReply
deriving DecidableEq, Repr

/-- The admin-cache warm-up at the top of the `try` block, guarded by
the minimum-time-to-start threshold. -/
def warmAdmins (deadline : ℤ) (s0 : MachineState) : Flow :=
  if MIN_TIME_TO_START_REQUEST_MS ≤ deadline - s0.now then
    fetchAdminsCached .adminsWarm deadline s0
  else .ok s0

/-- The `if (job.phase === 'conversations')` dispatch of `stepJob`. -/
def convDispatch (deadline : ℤ) (s : MachineState) : Flow :=
  if s.job.phase = .conversations then convLoop deadline s.env s.now s.job s.trace
  else .ok s

/-- The body of `stepJob`'s `try` block: the admin-cache warm-up (only
when at least the minimum time to start a request is left), then the
conversations, contacts and finalize phases in order, exceptions
short-circuiting. -/
def stepTry (deadline : ℤ) (s0 : MachineState) : Flow :=
  bindFlow (bindFlow (bindFlow (warmAdmins deadline s0) (convDispatch deadline))
    (contactsPhase deadline)) (finalizePhase deadline)

/-- Source `stepJob`: compute the step deadline, mark the job
running, run the `try` block, and answer with a progress snapshot; any
exception escaping the `try` block makes the job terminal with
`status = error` and `phase = complete`. -/
def stepJob (env : List RemoteReply) (now0 : ℤ) (job0 : Job) : StepOut :=
  let deadline := now0 + STEP_BUDGET_MS - STEP_SAFETY_MS
  let jobR := { job0 with status := .running, updatedAtMs := now0 }
  let s0 : MachineState := { env := env, now := now0, job := jobR, trace := [] }
  match stepTry deadline s0 with
  | .ok s =>
      let jobU := { s.job with updatedAtMs := s.now }
      let (missing, jobM) := countMissing s.now jobU
      { job := jobM
        resp := .progress jobM.id jobM.status jobM.phase
          (decide (jobM.status = .complete)) jobM.lookbackDays jobM.sinceUnix
          { pagesFetched := jobM.pagesFetched
            conversationsFetched := jobM.conversationsFetched
            sessionsCount := jobM.sessionsCount
            uniqueMembers := jobM.memberIds.length
            missingContacts := missing }
          jobM.startingAfter
        trace := s.trace
        now := s.now
        env := s.env }
  | .thrown s e =>
      let jobE := { s.job with
                      status := .error
                      phase := .complete
                      error := some e.message
                      updatedAtMs := s.now }
      { job := jobE
        resp := .terminal jobE.id jobE.status jobE.phase jobE.error
        trace := s.trace
        now := s.now
        env := s.env }

/-- The `op === 'step'` branch of the `POST` handler, after the job has
been looked up: a job already in a terminal status answers with its
terminal snapshot and is not stepped; otherwise `stepJob` runs. -/
def postStep (env : List RemoteReply) (now0 : ℤ) (job : Job) :
    Job × StepResponse :=
  if job.status = .complete ∨ job.status = .error ∨ job.status = .cancelled then
    (job, .terminal job.id job.status job.phase job.error)
  else
    let out := stepJob env now0 job
    (out.job, out.resp)

/-- Source `createJob`. `lookbackDays` and `untilLookbackDays`
are the already-validated JS numbers; the id is taken as a parameter in
place of `randomUUID()`. -/
def createJob (id : String) (nowMs : ℤ) (lookbackDays : ℚ)
    (untilLookbackDays : Option ℚ) : Job :=
  let nowUnix : ℚ := (nowMs.fdiv 1000 : ℤ)
  let sinceUnix := nowUnix - lookbackDays * (SECONDS_PER_DAY : ℤ)
  let untilUnix :=
    match untilLookbackDays with
    | some u =>
        if 0 < u ∧ u < lookbackDays then
          some (nowUnix - u * (SECONDS_PER_DAY : ℤ))
        else none
    | none => none
  { id := id
    lookbackDays := lookbackDays
    sinceUnix := sinceUnix
    untilUnix := untilUnix
    untilLookbackDays := untilLookbackDays
    status := .queued
    phase := .conversations
    createdAtMs := nowMs
    updatedAtMs := nowMs
    error := none
    startingAfter := none
    pagesFetched := 0
    conversationsFetched := 0
    sessionsCount := 0
    memberIds := []
    memberAgg := []
    sessions := []
    adminCache := none
    contactCache := []
    consecutiveAbortErrors := 0
    generatedAt := none
    totalMembers := none
    summary := none
    members := none }

/-- Outcome of the `op === 'create'` branch of the `POST` handler. -/
inductive CreateResult where
  | invalidLookback
  | invalidUntil
  | created (job : Job)
deriving DecidableEq, Repr

/-- The `op === 'create'` branch of the `POST` handler. A raw value of
`none` models a `Number(...)` result of `NaN`; for `untilRaw`, the outer
`Option` models `body.untilLookbackDays == null`. A non-numeric or
non-positive `lookbackDays` is rejected, then capped at 365; a present
`untilLookbackDays` that is `NaN` or non-positive is rejected with a 400
before the job is created. -/
def postCreate (id : String) (nowMs : ℤ) (lookbackRaw : Option ℚ)
    (untilRaw : Option (Option ℚ)) : CreateResult :=
  match lookbackRaw with
  | none => .invalidLookback
  | some parsed =>
      if parsed ≤ 0 then .invalidLookback
      else
        let lookbackDays := min parsed 365
        match untilRaw with
        | none => .created (createJob id nowMs lookbackDays none)
        | some none => .invalidUntil
        | some (some u) =>
            if u ≤ 0 then .invalidUntil
            else .created (createJob id nowMs lookbackDays (some u))

/-- A `GET ?jobId=...&view=...` response, as far as the result-paging
claims are concerned. -/
inductive GetResult where
  | conflict (status : JobStatus) (phase : JobPhase)
  | summarySnap (lookbackDays : ℚ) (generatedAt : Option ℤ) (totalMembers : ℕ)
      (summary : Option CaseloadSummary)
  | page (items : List CaseloadMemberRow) (nextOffset : Option ℤ) (total : ℕ)
  | sessionsPage (items : List SessionRow) (nextOffset : Option ℤ) (total : ℕ)
  | unknownView
deriving DecidableEq, Repr

/-- The `view`-carrying branch of the `GET` handler, after the job has
been looked up: 409 `Conflict` unless the job is `complete`; the
`summary` view returns the frozen summary; the list views clamp
`offset` to `≥ 0` and `limit` into `[1, 5000]` and slice the frozen
list, with `nextOffset = offset + limit` exactly when more items remain.
(For the `sessions` view, `buildSessionDetailsSlice` additionally
re-hydrates each sliced row from the caches; the slicing itself — the
part the paging claims are about — is modelled on the raw rows.) -/
def getWithView (job : Job) (view : String) (offsetRaw limitRaw : Option ℤ) :
    GetResult :=
  if job.status ≠ .complete then .conflict job.status job.phase
  else if view = "summary" then
    .summarySnap job.lookbackDays job.generatedAt (job.totalMembers.getD 0) job.summary
  else
    let offset : ℤ := max 0 (offsetRaw.getD 0)
    let limit : ℤ := min 5000 (max 1 (limitRaw.getD 500))
    if view = "members" then
      let members := job.members.getD []
      let items := (members.drop offset.toNat).take limit.toNat
      let nextOffset : Option ℤ :=
        if offset + limit < (members.length : ℤ) then some (offset + limit) else none
      .page items nextOffset members.length
    else if view = "sessions" then
      let sessions := job.sessions
      .sessionsPage ((sessions.drop offset.toNat).take limit.toNat)
        (if offset + limit < (sessions.length : ℤ) then some (offset + limit)
         else none)
        sessions.length
    else .unknownView

/-- One remote HTTP response for the External Request Client model:
`status`, and the parsed `Retry-After` header — `some r` when the header
is present and `Number(header)` is finite, else `none`. -/
structure HttpResp where
  status : ℕ
  retryAfter : Option ℚ
  body : String
deriving DecidableEq, Repr

/-- JS `res.ok`. -/
def respOk (r : HttpResp) : Bool := decide (200 ≤ r.status ∧ r.status < 300)

/-- The backoff the 429 branch sleeps, in seconds: the server-advised
`Retry-After` when present and finite, else `2 ** attempt`. -/
def backoffSeconds (attempt : ℕ) (r : HttpResp) : ℚ :=
  r.retryAfter.getD ((2 : ℚ) ^ attempt)

/-- The retry loop of `intercomRequest` (shared by
`src/lib/server/intercom.ts` and the caseload copy, which fixes
`maxRetries = MAX_RETRIES = 3`): attempt `n` receives `responses n`; a
429 with `attempt < maxRetries` sleeps the backoff (in ms) and retries;
otherwise a non-ok response throws and an ok response returns the body.
Returns (number of attempts made, sleeps performed in ms, outcome). -/
def intercomRequest (maxRetries : ℕ) (responses : ℕ → HttpResp) (attempt : ℕ) :
    ℕ × List ℚ × Except String String :=
  let r := responses attempt
  if h : r.status = 429 ∧ attempt < maxRetries then
    let rec429 := intercomRequest maxRetries responses (attempt + 1)
    (rec429.1 + 1, backoffSeconds attempt r * 1000 :: rec429.2.1, rec429.2.2)
  else if respOk r then (1, [], .ok r.body)
  else (1, [], .error ("Intercom " ++ toString r.status ++ ": " ++ r.body))
  termination_by maxRetries - attempt
  decreasing_by omega

/-- The state carried by a `HydrateOut`, whichever constructor. -/
def HydrateOut.state : HydrateOut → MachineState
  | .okH s _ => s
  | .errH s _ => s

/-- The `phase` field as a rank along `conversations → contacts → finalize →
complete`. -/
def phaseRank : JobPhase → ℕ
  | .conversations => 0
  | .contacts => 1
  | .finalize => 2
  | .complete => 3

/-- Events of the trace an outbound call may legitimately carry: the
unguarded finalize-phase admin refresh, or a call started with at least
the minimum time to start a request left. -/
def GoodEv (e : CallEvent) : Prop :=
  e.kind = .adminsFinal ∨ MIN_TIME_TO_START_REQUEST_MS ≤ e.timeLeft

/-- The job of the C1 counterexample: mid-run in the `contacts` phase,
one member still to hydrate, and an admin cache 599 s old (fresh at the
step start, stale by the time finalize runs). -/
def cexJobC1 : Job :=
  { createJob "c1" 1000000 30 none with
      status := .running
      phase := .contacts
      adminCache := some (401000, [])
      memberIds := ["m1"]
      memberAgg := [("m1", { lastSessionAt := 1000, channels := ["Chat"], coachIds := [] })] }

/-- The oracle of the C1 counterexample: the contact hydration succeeds
but takes 15 s, then the finalize-phase admin listing answers. -/
def cexEnvC1 : List RemoteReply :=
  [.okReply 15000
     { contacts := [{ id := "m1", name := some "N", email := none, attrsClient := none, notFound := false }] },
   .okReply 100 {}]

/-- The job of the C2 finalize-bypass scenario: mid-run in the
`contacts` phase with the consecutive-abort counter already at 2, one
member still to hydrate, and an admin cache fresh at the step start but
stale by the time finalize refreshes it. -/
def cexJobC2fin : Job :=
  { createJob "c2f" 1000000 30 none with
      status := .running
      phase := .contacts
      adminCache := some (401000, [])
      consecutiveAbortErrors := 2
      memberIds := ["m1"]
      memberAgg := [("m1", { lastSessionAt := 1000, channels := ["Chat"], coachIds := [] })] }

/-- The oracle of the C2 finalize-bypass scenario: the contact
hydration succeeds after 15 s (so the admin cache has gone stale), then
the finalize-phase admin refresh aborts. -/
def cexEnvC2fin : List RemoteReply :=
  [.okReply 15000
     { contacts := [{ id := "m1", name := some "N", email := none, attrsClient := none, notFound := false }] },
   .abortErr 50]

/-! ### Association-list and set lemmas -/

theorem lookupA_setA_self {α : Type} (l : List (String × α)) (k : String) (v : α) :
    lookupA (setA l k v) k = some v := by
  induction l with
  | nil => simp [setA, lookupA]
  | cons p rest ih =>
      obtain ⟨k', v'⟩ := p
      by_cases h : k' = k <;> simp [setA, lookupA, h, ih]

theorem lookupA_setA_ne {α : Type} (l : List (String × α)) (k k' : String) (v : α)
    (h : k' ≠ k) : lookupA (setA l k v) k' = lookupA l k' := by
  have h' : ¬ k = k' := fun e => h e.symm
  induction l with
  | nil => simp [setA, lookupA, h']
  | cons p rest ih =>
      obtain ⟨k1, v1⟩ := p
      by_cases h1 : k1 = k
      · subst h1
        simp [setA, lookupA, h']
      · by_cases h2 : k1 = k' <;> simp [setA, lookupA, h1, h2, h, h', ih]

theorem lookupA_eq_none_of_not_mem {α : Type} (l : List (String × α)) (k : String)
    (h : k ∉ l.map Prod.fst) : lookupA l k = none := by
  induction l with
  | nil => simp [lookupA]
  | cons p rest ih =>
      obtain ⟨k', v'⟩ := p
      simp only [List.map_cons, List.mem_cons] at h
      push_neg at h
      have h1 : ¬ k' = k := fun e => h.1 e.symm
      simp [lookupA, h1, ih h.2]

theorem lookupA_eraseA_self {α : Type} (l : List (String × α)) (k : String)
    (hnd : (l.map Prod.fst).Nodup) : lookupA (eraseA l k) k = none := by
  induction l with
  | nil => simp [eraseA, lookupA]
  | cons p rest ih =>
      obtain ⟨k', v'⟩ := p
      simp only [List.map_cons, List.nodup_cons] at hnd
      by_cases h : k' = k
      · subst h
        simpa [eraseA] using lookupA_eq_none_of_not_mem rest k' hnd.1
      · simp [eraseA, lookupA, h, ih hnd.2]

theorem mem_setAdd (l : List String) (a b : String) :
    a ∈ setAdd l b ↔ a ∈ l ∨ a = b := by
  by_cases hb : b ∈ l
  · simp only [setAdd, if_pos hb]
    exact ⟨fun h => Or.inl h, fun h => h.elim id (fun e => e ▸ hb)⟩
  · simp [setAdd, if_neg hb]

/-! ### C8: contact-cache TTL -/

/-- C8: a cache entry, positive or negative, written at time `now`
expires exactly at `now + CONTACT_CACHE_TTL_MS` (so not-found
placeholders carry the same TTL as real records); a read strictly before
an entry's expiry instant returns the entry and leaves the cache
untouched, and a read strictly after it reports a miss and evicts the
entry. -/
theorem contact_cache_ttl (now t : ℤ) (cache : Cache) (c : Contact) (id : String)
    (hc : c.id ≠ "") (hid : id ≠ "") :
    (lookupA (setCachedContact now cache c) c.id =
       some { expiresAtMs := now + CONTACT_CACHE_TTL_MS, contact := c }) ∧
    (lookupA (setNotFoundContact now cache id) id =
       some { expiresAtMs := now + CONTACT_CACHE_TTL_MS
              contact := { id := id, name := none, email := none,
                           attrsClient := none, notFound := true } }) ∧
    (∀ (cache2 : Cache) (e : JobContactCacheEntry),
       lookupA cache2 id = some e →
       (t < e.expiresAtMs → getCachedContact t cache2 id = (some e.contact, cache2)) ∧
       (e.expiresAtMs < t → (cache2.map Prod.fst).Nodup →
          getCachedContact t cache2 id = (none, eraseA cache2 id) ∧
          lookupA (eraseA cache2 id) id = none)) := by
  refine ⟨?_, ?_, ?_⟩
  · simp [setCachedContact, hc, lookupA_setA_self]
  · simp [setNotFoundContact, hid, lookupA_setA_self]
  · intro cache2 e he
    constructor
    · intro hlt
      simp [getCachedContact, he, not_lt.mpr (le_of_lt hlt)]
    · intro hgt hnd
      refine ⟨?_, lookupA_eraseA_self cache2 id hnd⟩
      simp [getCachedContact, he, hgt]

/-- Witness for `contact_cache_ttl` at a concrete entry: a record cached
at time 0 is a hit at `TTL − 1` and an evicted miss at `TTL + 1`. -/
theorem contact_cache_ttl_witness :
    let c : Contact := { id := "c1", name := some "n", email := none,
                         attrsClient := none, notFound := false }
    let cache1 : Cache := setCachedContact 0 [] c
    getCachedContact (CONTACT_CACHE_TTL_MS - 1) cache1 "c1" = (some c, cache1) ∧
    getCachedContact (CONTACT_CACHE_TTL_MS + 1) cache1 "c1" = (none, []) := by
  intro c cache1
  have h := contact_cache_ttl 0 (CONTACT_CACHE_TTL_MS - 1) [] c "c1"
    (by decide) (by decide)
  have h' := contact_cache_ttl 0 (CONTACT_CACHE_TTL_MS + 1) [] c "c1"
    (by decide) (by decide)
  refine ⟨?_, ?_⟩
  · have := (h.2.2 cache1 { expiresAtMs := 0 + CONTACT_CACHE_TTL_MS, contact := c }
      (by decide)).1 (by decide)
    simpa [CONTACT_CACHE_TTL_MS] using this
  · have := (h'.2.2 cache1 { expiresAtMs := 0 + CONTACT_CACHE_TTL_MS, contact := c }
      (by decide)).2 (by decide) (by decide)
    simpa [CONTACT_CACHE_TTL_MS, eraseA] using this.1

/-! ### C6: bucket partition -/

/-- How many of the four bucket flags are set. -/
def bucketCount (b : MemberBuckets) : ℕ :=
  (if b.bucket_1 then 1 else 0) + (if b.bucket_2 then 1 else 0) +
    (if b.bucket_3 then 1 else 0) + (if b.bucket_4 then 1 else 0)

/-- The total of the four summary counts. -/
def sumSummary (s : CaseloadSummary) : ℕ :=
  s.bucket_1 + s.bucket_2 + s.bucket_3 + s.bucket_4

theorem bucketCount_computeBuckets (d : ℚ) : bucketCount (computeBuckets d) = 1 := by
  simp only [computeBuckets, bucketCount]
  rcases le_or_lt d 7 with h1 | h1
  · have h2 : ¬ (7 : ℚ) < d := not_lt.mpr h1
    have h28 : d ≤ 28 := le_trans h1 (by norm_num)
    have h4 : ¬ (56 : ℚ) < d := not_lt.mpr (le_trans h1 (by norm_num))
    simp [h1, h2, h28, h4]
  · rcases le_or_lt d 28 with h2 | h2
    · have h4 : ¬ (56 : ℚ) < d := not_lt.mpr (le_trans h2 (by norm_num))
      have h3 : ¬ (28 : ℚ) < d := not_lt.mpr h2
      simp [not_le.mpr h1, h1, h2, h3, h4]
    · rcases le_or_lt d 56 with h3 | h3
      · have h1' : ¬ d ≤ 7 := not_le.mpr (lt_trans (by norm_num) h2)
        have h4 : ¬ (56 : ℚ) < d := not_lt.mpr h3
        simp [h1', not_le.mpr h2, h2, h3, h4]
      · have h1' : ¬ d ≤ 7 := not_le.mpr (lt_trans (by norm_num) h3)
        have h2' : ¬ d ≤ 28 := not_le.mpr (lt_trans (by norm_num) h3)
        have h3' : ¬ d ≤ 56 := not_le.mpr h3
        simp [h1', h2', h3', h3]

theorem buckets_of_mem_buildMembers (nowUnix nowMs : ℤ)
    (adminMap : List (String × AdminInfo)) :
    ∀ (aggs : List (String × MemberAgg)) (cache : Cache),
      ∀ row ∈ (buildMembers nowUnix nowMs adminMap aggs cache).1,
        row.buckets = computeBuckets row.daysSinceLastSession := by
  intro aggs
  induction aggs with
  | nil => intro cache row h; simp [buildMembers] at h
  | cons p rest ih =>
      obtain ⟨memberId, agg⟩ := p
      intro cache row h
      simp only [buildMembers] at h
      by_cases hz : agg.lastSessionAt = 0
      · simp only [hz, if_pos rfl] at h
        exact ih _ row h
      · simp only [if_neg hz, List.mem_cons] at h
        rcases h with h | h
        · subst h; rfl
        · exact ih _ row h

theorem sumSummary_of_partition (rows : List CaseloadMemberRow)
    (h : ∀ row ∈ rows, bucketCount row.buckets = 1) :
    sumSummary (summaryOf rows) = rows.length := by
  have step : ∀ (acc : CaseloadSummary) (l : List CaseloadMemberRow),
      (∀ row ∈ l, bucketCount row.buckets = 1) →
      sumSummary (l.foldl
        (fun acc m =>
          { bucket_1 := acc.bucket_1 + (if m.buckets.bucket_1 then 1 else 0)
            bucket_2 := acc.bucket_2 + (if m.buckets.bucket_2 then 1 else 0)
            bucket_3 := acc.bucket_3 + (if m.buckets.bucket_3 then 1 else 0)
            bucket_4 := acc.bucket_4 + (if m.buckets.bucket_4 then 1 else 0) }) acc) =
        sumSummary acc + l.length := by
    intro acc l
    induction l generalizing acc with
    | nil => intro _; simp
    | cons m rest ih =>
        intro hl
        have hm := hl m (List.mem_cons_self m rest)
        have hrest : ∀ row ∈ rest, bucketCount row.buckets = 1 :=
          fun row hr => hl row (List.mem_cons_of_mem m hr)
        simp only [List.foldl_cons, ih _ hrest, List.length_cons]
        simp only [bucketCount] at hm
        simp only [sumSummary]
        omega
  simpa [sumSummary] using step ⟨0, 0, 0, 0⟩ rows h

/-- C6: every member row's bucket flags are a partition — exactly one of
the four flags is set, with the boundaries at 7, 28 and 56 days exactly
as the code writes them — and therefore the four summary counts of the
finalize phase sum to the number of finalized member rows
(`totalMembers`). -/
theorem bucket_partition :
    (∀ d : ℚ,
       bucketCount (computeBuckets d) = 1 ∧
       ((computeBuckets d).bucket_1 = true ↔ d ≤ 7) ∧
       ((computeBuckets d).bucket_2 = true ↔ 7 < d ∧ d ≤ 28) ∧
       ((computeBuckets d).bucket_3 = true ↔ 28 < d ∧ d ≤ 56) ∧
       ((computeBuckets d).bucket_4 = true ↔ 56 < d)) ∧
    (∀ (nowUnix nowMs : ℤ) (adminMap : List (String × AdminInfo))
       (aggs : List (String × MemberAgg)) (cache : Cache),
       sumSummary (summaryOf (buildMembers nowUnix nowMs adminMap aggs cache).1) =
         (buildMembers nowUnix nowMs adminMap aggs cache).1.length) := by
  constructor
  · intro d
    refine ⟨bucketCount_computeBuckets d, ?_, ?_, ?_, ?_⟩ <;>
      simp [computeBuckets]
  · intro nowUnix nowMs adminMap aggs cache
    refine sumSummary_of_partition _ (fun row hr => ?_)
    rw [buckets_of_mem_buildMembers nowUnix nowMs adminMap aggs cache row hr]
    exact bucketCount_computeBuckets _

/-! ### C4: idempotent terminal stepping -/

/-- C4: the `op === 'step'` handler answers a job whose status is
terminal (`complete`, `error` or `cancelled`) with its terminal snapshot
(`done = true`, the stored status, phase and error) while leaving the
job — in particular every accumulator — untouched, so every subsequent
step call returns the identical snapshot no matter what the remote API
would do. -/
theorem terminal_step_idempotent (env : List RemoteReply) (now : ℤ) (job : Job)
    (h : job.status = .complete ∨ job.status = .error ∨ job.status = .cancelled) :
    postStep env now job = (job, .terminal job.id job.status job.phase job.error) ∧
    ∀ (env2 : List RemoteReply) (now2 : ℤ),
      postStep env2 now2 job = postStep env now job := by
  constructor
  · simp [postStep, h]
  · intro env2 now2
    simp [postStep, h]

/-- Witness for `terminal_step_idempotent`: a freshly created job marked
`cancelled` answers two different step calls with the same snapshot and
stays unchanged. -/
theorem terminal_step_idempotent_witness :
    let job : Job := { createJob "j1" 0 30 none with
                         status := .cancelled
                         phase := .complete }
    postStep [] 0 job = (job, .terminal "j1" .cancelled .complete none) ∧
    postStep [.abortErr 5] 99 job = postStep [] 0 job := by
  intro job
  have h := terminal_step_idempotent [] 0 job (by right; right; rfl)
  exact ⟨h.1, h.2 [.abortErr 5] 99⟩

/-! ### C9: result retrieval and paging -/

/-- C9: a `view` retrieval on a job that is not `complete` answers 409
`Conflict` whatever the view; on a complete job the limit is clamped
into `[1, 5000]`, the returned items are exactly the slice
`[offset, offset+limit)` of the frozen member list, and `nextOffset`
is `offset+limit` exactly when more items remain, else absent. -/
theorem results_paging (job : Job) (offsetRaw limitRaw : Option ℤ) :
    (job.status ≠ .complete →
       ∀ view, getWithView job view offsetRaw limitRaw =
         .conflict job.status job.phase) ∧
    (job.status = .complete →
       (1 : ℤ) ≤ min 5000 (max 1 (limitRaw.getD 500)) ∧
       min 5000 (max 1 (limitRaw.getD 500)) ≤ (5000 : ℤ) ∧
       getWithView job "members" offsetRaw limitRaw =
         .page (((job.members.getD []).drop (max 0 (offsetRaw.getD 0)).toNat).take
                  (min 5000 (max 1 (limitRaw.getD 500))).toNat)
           (if max 0 (offsetRaw.getD 0) + min 5000 (max 1 (limitRaw.getD 500)) <
                ((job.members.getD []).length : ℤ) then
              some (max 0 (offsetRaw.getD 0) + min 5000 (max 1 (limitRaw.getD 500)))
            else none)
           (job.members.getD []).length ∧
       getWithView job "sessions" offsetRaw limitRaw =
         .sessionsPage ((job.sessions.drop (max 0 (offsetRaw.getD 0)).toNat).take
                  (min 5000 (max 1 (limitRaw.getD 500))).toNat)
           (if max 0 (offsetRaw.getD 0) + min 5000 (max 1 (limitRaw.getD 500)) <
                (job.sessions.length : ℤ) then
              some (max 0 (offsetRaw.getD 0) + min 5000 (max 1 (limitRaw.getD 500)))
            else none)
           job.sessions.length) := by
  constructor
  · intro h view
    simp [getWithView, h]
  · intro h
    refine ⟨?_, ?_, ?_, ?_⟩
    · have := le_max_left (1 : ℤ) (limitRaw.getD 500)
      omega
    · exact min_le_left _ _
    · simp [getWithView, h]
    · simp [getWithView, h]

/-- Witness for `results_paging`: a complete job whose frozen list has
three rows, read with `offset = 1`, `limit = 2`: the slice is the last
two rows and `nextOffset` is absent; the same job mid-run conflicts. -/
theorem results_paging_witness :
    let r := fun (m : String) => mkMemberRow 0 [] m
      { lastSessionAt := 5, channels := [], coachIds := [] } none
    let done : Job := { createJob "j2" 0 30 none with
                          status := .complete
                          phase := .complete
                          members := some [r "a", r "b", r "c"] }
    let runningJob : Job := { createJob "j2" 0 30 none with status := .running }
    getWithView done "members" (some 1) (some 2) =
      .page [r "b", r "c"] none 3 ∧
    getWithView runningJob "members" (some 1) (some 2) =
      .conflict .running .conversations := by
  intro r done runningJob
  constructor
  · have h := (results_paging done (some 1) (some 2)).2 rfl
    have h3 := h.2.2.1
    simpa [done, r] using h3
  · exact (results_paging runningJob (some 1) (some 2)).1 (by decide) "members"

/-! ### C10: create-time window sanitization -/

/-- Counterexample to C10 as stated: a request with `lookbackDays = 30`
and `untilLookbackDays = -1` — a value not strictly between 0 and the
capped lookback — is not silently ignored: the create handler rejects it
with an `Invalid untilLookbackDays` 400 response and no job is
created. -/
theorem create_sanitize_cex :
    postCreate "j" 1000000 (some 30) (some (some (-1))) =
      CreateResult.invalidUntil := by
  decide

/-- C10 (amended): `lookbackDays` greater than 365 is silently capped to
365; a present `untilLookbackDays` that is `NaN` or `≤ 0` is rejected
with a 400, while an `untilLookbackDays` at or above the capped
`lookbackDays` passes validation and is silently ignored, producing a
job with no upper window bound (`untilUnix` absent). -/
theorem create_sanitize_amended (id : String) (nowMs : ℤ) :
    (∀ p : ℚ, 365 < p →
       postCreate id nowMs (some p) none = .created (createJob id nowMs 365 none)) ∧
    (∀ p u : ℚ, 0 < p → u ≤ 0 →
       postCreate id nowMs (some p) (some (some u)) = .invalidUntil) ∧
    (∀ p : ℚ, 0 < p → postCreate id nowMs (some p) (some none) = .invalidUntil) ∧
    (∀ p u : ℚ, 0 < p → 0 < u → min p 365 ≤ u →
       postCreate id nowMs (some p) (some (some u)) =
         .created (createJob id nowMs (min p 365) (some u)) ∧
       (createJob id nowMs (min p 365) (some u)).untilUnix = none) := by
  refine ⟨?_, ?_, ?_, ?_⟩
  · intro p hp
    have hpos : ¬ p ≤ 0 := not_le.mpr (lt_trans (by norm_num) hp)
    have hmin : min p 365 = 365 := min_eq_right (le_of_lt hp)
    simp [postCreate, hpos, hmin]
  · intro p u hp hu
    have hpos : ¬ p ≤ 0 := not_le.mpr hp
    simp [postCreate, hpos, hu]
  · intro p hp
    have hpos : ¬ p ≤ 0 := not_le.mpr hp
    simp [postCreate, hpos]
  · intro p u hp hu hcap
    have hpos : ¬ p ≤ 0 := not_le.mpr hp
    have hune : ¬ u ≤ 0 := not_le.mpr hu
    refine ⟨by simp [postCreate, hpos, hune], ?_⟩
    have : ¬ u < min p 365 := not_lt.mpr hcap
    simp [createJob, this]

/-- Witness for `create_sanitize_amended`: `lookbackDays = 400` is
created as 365; `untilLookbackDays = 500` (≥ the capped 365) yields a
job with `untilUnix` absent. -/
theorem create_sanitize_amended_witness :
    postCreate "j" 0 (some 400) none = .created (createJob "j" 0 365 none) ∧
    postCreate "j" 0 (some 400) (some (some 500)) =
      .created (createJob "j" 0 (min 400 365) (some 500)) ∧
    (createJob "j" 0 (min 400 365) (some 500)).untilUnix = none := by
  have h := create_sanitize_amended "j" 0
  have h1 := h.1 400 (by norm_num)
  have h4 := h.2.2.2 400 500 (by norm_num) (by norm_num) (by norm_num)
  exact ⟨h1, h4.1, h4.2⟩

/-! ### C7: retry/backoff bound -/

theorem intercomRequest_429_count (maxRetries : ℕ) (responses : ℕ → HttpResp)
    (h429 : ∀ n, (responses n).status = 429) :
    ∀ k a, maxRetries - a = k →
      (intercomRequest maxRetries responses a).1 = maxRetries - a + 1 ∧
      (∃ msg, (intercomRequest maxRetries responses a).2.2 = .error msg) ∧
      (intercomRequest maxRetries responses a).2.1 =
        (List.range' a (maxRetries - a)).map
          (fun i => backoffSeconds i (responses i) * 1000) := by
  intro k
  induction k with
  | zero =>
      intro a ha
      have hma : ¬ ((responses a).status = 429 ∧ a < maxRetries) := by
        rintro ⟨-, hlt⟩; omega
      have hok : respOk (responses a) = false := by
        simp [respOk, h429 a]
      rw [intercomRequest]
      simp [hma, hok, ha]
  | succ k ih =>
      intro a ha
      have hlt : a < maxRetries := by omega
      obtain ⟨h1, h2, h3⟩ := ih (a + 1) (by omega)
      have hrange : List.range' a (maxRetries - a) =
          a :: List.range' (a + 1) (maxRetries - (a + 1)) := by
        have h' : maxRetries - a = (maxRetries - (a + 1)) + 1 := by omega
        rw [h', List.range'_succ]
      rw [intercomRequest]
      rw [dif_pos (And.intro (h429 a) hlt)]
      refine ⟨?_, ?_, ?_⟩
      · show (intercomRequest maxRetries responses (a + 1)).1 + 1 = maxRetries - a + 1
        rw [h1]; omega
      · show ∃ msg, (intercomRequest maxRetries responses (a + 1)).2.2 =
          Except.error msg
        exact h2
      · show backoffSeconds a (responses a) * 1000 ::
            (intercomRequest maxRetries responses (a + 1)).2.1 =
          (List.range' a (maxRetries - a)).map
            (fun i => backoffSeconds i (responses i) * 1000)
        rw [h3, hrange, List.map_cons]

/-- C7: against a remote endpoint that always answers HTTP 429, one
`intercomRequest` call makes exactly `maxRetries` attempts (the default
`maxRetries` is `MAX_RETRIES = 3`) and then fails; between attempts it
sleeps the server-advised `Retry-After` duration when present and
finite, else `2 ^ attempt` seconds. -/
theorem retry_backoff_bound (maxRetries : ℕ) (responses : ℕ → HttpResp)
    (h429 : ∀ n, (responses n).status = 429) (hmr : 1 ≤ maxRetries) :
    (intercomRequest maxRetries responses 1).1 = maxRetries ∧
    (∃ msg, (intercomRequest maxRetries responses 1).2.2 = .error msg) ∧
    (intercomRequest maxRetries responses 1).2.1 =
      (List.range' 1 (maxRetries - 1)).map
        (fun i => backoffSeconds i (responses i) * 1000) := by
  obtain ⟨h1, h2, h3⟩ :=
    intercomRequest_429_count maxRetries responses h429 (maxRetries - 1) 1 rfl
  exact ⟨by rw [h1]; omega, h2, h3⟩

/-- Witness for `retry_backoff_bound` at the default `maxRetries = 3`
and no `Retry-After` header: exactly 3 attempts, sleeping 2000 ms then
4000 ms, and the call fails. -/
theorem retry_backoff_bound_witness :
    (intercomRequest 3 (fun _ => { status := 429, retryAfter := none, body := "rl" }) 1).1 = 3 ∧
    (intercomRequest 3 (fun _ => { status := 429, retryAfter := none, body := "rl" }) 1).2.1 = [2000, 4000] ∧
    (∃ msg, (intercomRequest 3 (fun _ => { status := 429, retryAfter := none, body := "rl" }) 1).2.2 = .error msg) := by
  obtain ⟨h1, h2, h3⟩ := retry_backoff_bound 3
    (fun _ => { status := 429, retryAfter := none, body := "rl" })
    (fun _ => rfl) (by norm_num)
  refine ⟨h1, ?_, h2⟩
  rw [h3]
  simp [List.range', backoffSeconds]
  norm_num

/-! ### C5: aggregation correctness -/

/-- The invariant of the aggregate map: for every member, the map entry
(when present) carries the maximum session time, the union of channels
and the union of coach ids of that member's sessions seen so far. -/
def AggOk (ss : List SessionRow) (aggs : List (String × MemberAgg)) : Prop :=
  ∀ m : String,
    match lookupA aggs m with
    | none => ∀ s ∈ ss, s.memberId ≠ m
    | some agg =>
        (∀ s ∈ ss, s.memberId = m → s.time ≤ agg.lastSessionAt) ∧
        (∃ s ∈ ss, s.memberId = m ∧ s.time = agg.lastSessionAt) ∧
        (∀ c, c ∈ agg.channels ↔ ∃ s ∈ ss, s.memberId = m ∧ s.channel = c) ∧
        (∀ k, k ∈ agg.coachIds ↔
          ∃ s ∈ ss, s.memberId = m ∧ s.coachId = some k ∧ k ≠ "")

theorem aggOk_nil : AggOk [] [] := by
  intro m
  simp [lookupA]

theorem lookupA_upsertAgg_self (aggs : List (String × MemberAgg)) (s : SessionRow) :
    lookupA (upsertAgg aggs s) s.memberId = some
      { lastSessionAt :=
          if s.time > ((lookupA aggs s.memberId).getD
              { lastSessionAt := 0, channels := [], coachIds := [] }).lastSessionAt
          then s.time
          else ((lookupA aggs s.memberId).getD
              { lastSessionAt := 0, channels := [], coachIds := [] }).lastSessionAt
        channels := setAdd ((lookupA aggs s.memberId).getD
            { lastSessionAt := 0, channels := [], coachIds := [] }).channels s.channel
        coachIds :=
          match s.coachId with
          | some k =>
            if k = "" then ((lookupA aggs s.memberId).getD
              { lastSessionAt := 0, channels := [], coachIds := [] }).coachIds
            else setAdd ((lookupA aggs s.memberId).getD
              { lastSessionAt := 0, channels := [], coachIds := [] }).coachIds k
          | none => ((lookupA aggs s.memberId).getD
              { lastSessionAt := 0, channels := [], coachIds := [] }).coachIds } := by
  unfold upsertAgg
  exact lookupA_setA_self _ _ _

theorem aggOk_step (ss : List SessionRow) (aggs : List (String × MemberAgg))
    (h : AggOk ss aggs) (s : SessionRow) :
    AggOk (ss ++ [s]) (upsertAgg aggs s) := by
  intro m
  by_cases hm : m = s.memberId
  · subst hm
    rw [lookupA_upsertAgg_self aggs s]
    have hc := h s.memberId
    cases hl : lookupA aggs s.memberId with
    | none =>
        rw [hl] at hc
        simp only [hl, Option.getD_none]
        refine ⟨?_, ?_, ?_, ?_⟩
        · intro s' hs' hmem
          rcases List.mem_append.mp hs' with h1 | h1
          · exact absurd hmem (hc s' h1)
          · have : s' = s := List.mem_singleton.mp h1
            subst this
            by_cases ht : s'.time > 0 <;> simp [ht] <;> omega
        · refine ⟨s, List.mem_append_right _ (List.mem_singleton_self s), rfl, ?_⟩
          by_cases ht : s.time > 0 <;> simp [ht] <;> omega
        · intro c
          simp only [setAdd, List.not_mem_nil, if_neg, List.nil_append]
          constructor
          · intro hcm
            have : c = s.channel := by simpa using hcm
            exact ⟨s, List.mem_append_right _ (List.mem_singleton_self s), rfl, this.symm⟩
          · rintro ⟨s', hs', hmem, hch⟩
            rcases List.mem_append.mp hs' with h1 | h1
            · exact absurd hmem (hc s' h1)
            · have : s' = s := List.mem_singleton.mp h1
              subst this
              simp [hch]
        · intro k
          cases hk : s.coachId with
          | none =>
              simp only [List.not_mem_nil, false_iff]
              rintro ⟨s', hs', hmem, hco, hne⟩
              rcases List.mem_append.mp hs' with h1 | h1
              · exact absurd hmem (hc s' h1)
              · have : s' = s := List.mem_singleton.mp h1
                subst this
                rw [hk] at hco
                exact Option.noConfusion hco
          | some k0 =>
              show (k ∈ if k0 = "" then ([] : List String) else setAdd [] k0) ↔ _
              by_cases hk0 : k0 = ""
              · rw [if_pos hk0]
                simp only [List.not_mem_nil, false_iff]
                rintro ⟨s', hs', hmem, hco, hne⟩
                rcases List.mem_append.mp hs' with h1 | h1
                · exact absurd hmem (hc s' h1)
                · have : s' = s := List.mem_singleton.mp h1
                  subst this
                  rw [hk] at hco
                  exact hne (((Option.some.inj hco).symm).trans hk0)
              · rw [if_neg hk0]
                simp only [setAdd, List.not_mem_nil, if_neg, List.nil_append]
                constructor
                · intro hkm
                  have : k = k0 := by simpa using hkm
                  subst this
                  exact ⟨s, List.mem_append_right _ (List.mem_singleton_self s),
                    rfl, hk, hk0⟩
                · rintro ⟨s', hs', hmem, hco, hne⟩
                  rcases List.mem_append.mp hs' with h1 | h1
                  · exact absurd hmem (hc s' h1)
                  · have : s' = s := List.mem_singleton.mp h1
                    subst this
                    rw [hk] at hco
                    simpa using (Option.some.injEq _ _ ▸ hco).symm
    | some agg =>
        rw [hl] at hc
        obtain ⟨hub, hat, hch, hco⟩ := hc
        simp only [hl, Option.getD_some]
        refine ⟨?_, ?_, ?_, ?_⟩
        · intro s' hs' hmem
          rcases List.mem_append.mp hs' with h1 | h1
          · have := hub s' h1 hmem
            by_cases ht : s.time > agg.lastSessionAt <;> simp [ht] <;> omega
          · have : s' = s := List.mem_singleton.mp h1
            subst this
            by_cases ht : s'.time > agg.lastSessionAt <;> simp [ht] <;> omega
        · by_cases ht : s.time > agg.lastSessionAt
          · exact ⟨s, List.mem_append_right _ (List.mem_singleton_self s), rfl,
              by simp [ht]⟩
          · obtain ⟨s', hs', hm', ht'⟩ := hat
            exact ⟨s', List.mem_append_left _ hs', hm', by simp [ht, ht']⟩
        · intro c
          rw [mem_setAdd]
          constructor
          · rintro (hcm | hcm)
            · obtain ⟨s', hs', hm', hc'⟩ := (hch c).mp hcm
              exact ⟨s', List.mem_append_left _ hs', hm', hc'⟩
            · exact ⟨s, List.mem_append_right _ (List.mem_singleton_self s), rfl,
                hcm.symm⟩
          · rintro ⟨s', hs', hm', hc'⟩
            rcases List.mem_append.mp hs' with h1 | h1
            · exact Or.inl ((hch c).mpr ⟨s', h1, hm', hc'⟩)
            · have : s' = s := List.mem_singleton.mp h1
              subst this
              exact Or.inr hc'.symm
        · intro k
          cases hk : s.coachId with
          | none =>
              rw [hco k]
              constructor
              · rintro ⟨s', hs', hm', hc', hne⟩
                exact ⟨s', List.mem_append_left _ hs', hm', hc', hne⟩
              · rintro ⟨s', hs', hm', hc', hne⟩
                rcases List.mem_append.mp hs' with h1 | h1
                · exact ⟨s', h1, hm', hc', hne⟩
                · have : s' = s := List.mem_singleton.mp h1
                  subst this
                  rw [hk] at hc'
                  exact absurd hc' (Option.noConfusion)
          | some k0 =>
              show (k ∈ if k0 = "" then agg.coachIds else setAdd agg.coachIds k0) ↔ _
              by_cases hk0 : k0 = ""
              · rw [if_pos hk0, hco k]
                constructor
                · rintro ⟨s', hs', hm', hc', hne⟩
                  exact ⟨s', List.mem_append_left _ hs', hm', hc', hne⟩
                · rintro ⟨s', hs', hm', hc', hne⟩
                  rcases List.mem_append.mp hs' with h1 | h1
                  · exact ⟨s', h1, hm', hc', hne⟩
                  · have : s' = s := List.mem_singleton.mp h1
                    subst this
                    rw [hk] at hc'
                    exact absurd (((Option.some.inj hc').symm).trans hk0) hne
              · rw [if_neg hk0, mem_setAdd]
                constructor
                · rintro (hkm | hkm)
                  · obtain ⟨s', hs', hm', hc', hne⟩ := (hco k).mp hkm
                    exact ⟨s', List.mem_append_left _ hs', hm', hc', hne⟩
                  · subst hkm
                    exact ⟨s, List.mem_append_right _ (List.mem_singleton_self s),
                      rfl, hk, hk0⟩
                · rintro ⟨s', hs', hm', hc', hne⟩
                  rcases List.mem_append.mp hs' with h1 | h1
                  · exact Or.inl ((hco k).mpr ⟨s', h1, hm', hc', hne⟩)
                  · have : s' = s := List.mem_singleton.mp h1
                    subst this
                    rw [hk] at hc'
                    exact Or.inr (Option.some.inj hc').symm
  · have hne : m ≠ s.memberId := hm
    rw [show lookupA (upsertAgg aggs s) m = lookupA aggs m from by
      unfold upsertAgg; exact lookupA_setA_ne _ _ _ _ hne]
    have hc := h m
    cases hl : lookupA aggs m with
    | none =>
        rw [hl] at hc
        intro s' hs'
        rcases List.mem_append.mp hs' with h1 | h1
        · exact hc s' h1
        · have : s' = s := List.mem_singleton.mp h1
          subst this
          exact fun e => hm e.symm
    | some agg =>
        rw [hl] at hc
        obtain ⟨hub, hat, hch, hco⟩ := hc
        refine ⟨?_, ?_, ?_, ?_⟩
        · intro s' hs' hmem
          rcases List.mem_append.mp hs' with h1 | h1
          · exact hub s' h1 hmem
          · have : s' = s := List.mem_singleton.mp h1
            subst this
            exact absurd hmem.symm hm
        · obtain ⟨s', hs', hm', ht'⟩ := hat
          exact ⟨s', List.mem_append_left _ hs', hm', ht'⟩
        · intro c
          rw [hch c]
          constructor
          · rintro ⟨s', hs', hm', hc'⟩
            exact ⟨s', List.mem_append_left _ hs', hm', hc'⟩
          · rintro ⟨s', hs', hm', hc'⟩
            rcases List.mem_append.mp hs' with h1 | h1
            · exact ⟨s', h1, hm', hc'⟩
            · have : s' = s := List.mem_singleton.mp h1
              subst this
              exact absurd hm'.symm hm
        · intro k
          rw [hco k]
          constructor
          · rintro ⟨s', hs', hm', hc', hne⟩
            exact ⟨s', List.mem_append_left _ hs', hm', hc', hne⟩
          · rintro ⟨s', hs', hm', hc', hne⟩
            rcases List.mem_append.mp hs' with h1 | h1
            · exact ⟨s', h1, hm', hc', hne⟩
            · have : s' = s := List.mem_singleton.mp h1
              subst this
              exact absurd hm'.symm hm

theorem aggOk_foldl :
    ∀ (ss2 ss1 : List SessionRow) (aggs : List (String × MemberAgg)),
      AggOk ss1 aggs → AggOk (ss1 ++ ss2) (ss2.foldl upsertAgg aggs)
  | [], ss1, aggs, h => by simpa using h
  | s :: rest, ss1, aggs, h => by
      have h1 := aggOk_step ss1 aggs h s
      have h2 := aggOk_foldl rest (ss1 ++ [s]) (upsertAgg aggs s) h1
      simpa [List.append_assoc] using h2

/-- C5: folding any list of parsed session rows into the aggregate map
(as every conversations page does through `upsertMemberAgg`) gives, for
each member present in the map, a `lastSessionAt` that is the maximum
timestamp among that member's sessions (an upper bound that is
attained), a channel set that is exactly the union of the member's
session channels, and a coach set that is exactly the union of the
member's truthy coach ids (the `if (s.coachId)` guard skips both `null`
and the falsy empty string). -/
theorem aggregation_correct (ss : List SessionRow) (m : String) (agg : MemberAgg)
    (h : lookupA (ss.foldl upsertAgg []) m = some agg) :
    (∀ s ∈ ss, s.memberId = m → s.time ≤ agg.lastSessionAt) ∧
    (∃ s ∈ ss, s.memberId = m ∧ s.time = agg.lastSessionAt) ∧
    (∀ c, c ∈ agg.channels ↔ ∃ s ∈ ss, s.memberId = m ∧ s.channel = c) ∧
    (∀ k, k ∈ agg.coachIds ↔
      ∃ s ∈ ss, s.memberId = m ∧ s.coachId = some k ∧ k ≠ "") := by
  have h0 : AggOk ([] ++ ss) (ss.foldl upsertAgg []) :=
    aggOk_foldl ss [] [] aggOk_nil
  rw [List.nil_append] at h0
  have h1 := h0 m
  rw [h] at h1
  exact h1

/-- Witness for `aggregation_correct` on three sessions of one member:
the aggregate keeps the later timestamp, all channels, and the one
truthy coach id; the session with the falsy empty-string coach id
contributes nothing to the coach set. -/
theorem aggregation_correct_witness :
    let ss : List SessionRow :=
      [{ memberId := "m", coachId := some "c1", channel := "Chat", time := 10 },
       { memberId := "m", coachId := some "", channel := "SMS", time := 3 },
       { memberId := "m", coachId := none, channel := "Email", time := 7 }]
    let agg : MemberAgg :=
      { lastSessionAt := 10, channels := ["Chat", "SMS", "Email"],
        coachIds := ["c1"] }
    (∀ s ∈ ss, s.memberId = "m" → s.time ≤ agg.lastSessionAt) ∧
    (∃ s ∈ ss, s.memberId = "m" ∧ s.time = agg.lastSessionAt) ∧
    (∀ c, c ∈ agg.channels ↔ ∃ s ∈ ss, s.memberId = "m" ∧ s.channel = c) ∧
    (∀ k, k ∈ agg.coachIds ↔
      ∃ s ∈ ss, s.memberId = "m" ∧ s.coachId = some k ∧ k ≠ "") := by
  intro ss agg
  exact aggregation_correct ss "m" agg (by decide)

/-! ### Step-machine preservation lemmas -/

theorem fetchAdminsCached_proj (kind : CallKind) (dl : ℤ) (s : MachineState) :
    (fetchAdminsCached kind dl s).state.job.phase = s.job.phase ∧
    (fetchAdminsCached kind dl s).state.job.status = s.job.status ∧
    (fetchAdminsCached kind dl s).state.job.startingAfter = s.job.startingAfter ∧
    (fetchAdminsCached kind dl s).state.job.consecutiveAbortErrors =
      s.job.consecutiveAbortErrors := by
  cases hf : adminCacheFresh s.now s.job.adminCache with
  | true => simp [fetchAdminsCached, hf, Flow.state]
  | false =>
      rcases henv : s.env with - | ⟨r, rest⟩
      · simp [fetchAdminsCached, hf, callRemote, henv, Flow.state]
      · cases r <;> simp [fetchAdminsCached, hf, callRemote, henv, Flow.state]

theorem fetchAdminsCached_trace (kind : CallKind) (dl : ℤ) (s : MachineState) :
    ∀ e ∈ (fetchAdminsCached kind dl s).state.trace,
      e ∈ s.trace ∨ (e.kind = kind ∧ e.timeLeft = dl - s.now) := by
  intro e he
  cases hf : adminCacheFresh s.now s.job.adminCache with
  | true =>
      simp only [fetchAdminsCached, hf, if_pos, Flow.state] at he
      exact Or.inl he
  | false =>
      rcases henv : s.env with - | ⟨r, rest⟩
      · simp [fetchAdminsCached, hf, callRemote, henv, Flow.state] at he
        rcases he with he | he
        · exact Or.inl he
        · exact Or.inr (by simp [he])
      · cases r <;>
          · simp [fetchAdminsCached, hf, callRemote, henv, Flow.state] at he
            rcases he with he | he
            · exact Or.inl he
            · exact Or.inr (by simp [he])

theorem processPage_proj (job : Job) (convs : List Conv) (cur : Option String) :
    (processPage job convs cur).phase = job.phase ∧
    (processPage job convs cur).status = job.status ∧
    (processPage job convs cur).startingAfter = cur ∧
    (processPage job convs cur).consecutiveAbortErrors = 0 := by
  simp [processPage]

theorem convLoop_result (dl : ℤ) :
    ∀ (env : List RemoteReply) (now : ℤ) (job : Job) (tr : List CallEvent),
      job.phase = .conversations →
      (convLoop dl env now job tr).state.job.status = job.status ∧
      ((convLoop dl env now job tr).state.job.phase = .conversations ∨
        ((convLoop dl env now job tr).state.job.phase = .contacts ∧
         (convLoop dl env now job tr).state.job.startingAfter = none)) := by
  intro env
  induction env with
  | nil =>
      intro now job tr h
      rw [convLoop]
      by_cases hd : dl - now < MIN_TIME_TO_START_REQUEST_MS <;>
        simp [hd, Flow.state, h]
  | cons r rest ih =>
      intro now job tr h
      rw [convLoop]
      by_cases hd : dl - now < MIN_TIME_TO_START_REQUEST_MS
      · simp [hd, Flow.state, h]
      · cases r with
        | abortErr d =>
            by_cases h3 : 3 ≤ job.consecutiveAbortErrors + 1 <;>
              simp [hd, h3, Flow.state, h]
        | httpErr d m => simp [hd, Flow.state, h]
        | okReply d data =>
            cases hcur : data.nextCursor with
            | none =>
                simp only [hd, if_neg, hcur, Flow.state]
                refine ⟨?_, Or.inr ⟨rfl, ?_⟩⟩
                · simp [(processPage_proj job data.conversations none).2.1]
                · simp [(processPage_proj job data.conversations none).2.2.1]
            | some c =>
                by_cases hemp : data.conversations.isEmpty
                · simp only [hd, if_neg, hcur, hemp, if_pos, Flow.state]
                  constructor
                  · simp [(processPage_proj job data.conversations (some c)).2.1]
                  · exact Or.inl (by
                      simp [(processPage_proj job data.conversations (some c)).1, h])
                · have hj1 : (processPage job data.conversations (some c)).phase =
                      .conversations := by
                    rw [(processPage_proj job data.conversations (some c)).1, h]
                  have hrec := ih (now + d) (processPage job data.conversations (some c))
                    (tr ++ [⟨.convSearch, dl - now⟩]) hj1
                  simp only [Flow.state] at hrec
                  simp [hd, hcur, hemp, Flow.state]
                  refine ⟨?_, hrec.2⟩
                  rw [hrec.1, (processPage_proj job data.conversations (some c)).2.1]

theorem convLoop_trace (dl : ℤ) :
    ∀ (env : List RemoteReply) (now : ℤ) (job : Job) (tr : List CallEvent),
      ∀ e ∈ (convLoop dl env now job tr).state.trace,
        e ∈ tr ∨ (e.kind = .convSearch ∧ MIN_TIME_TO_START_REQUEST_MS ≤ e.timeLeft) := by
  intro env
  induction env with
  | nil =>
      intro now job tr e he
      rw [convLoop] at he
      by_cases hd : dl - now < MIN_TIME_TO_START_REQUEST_MS
      · simp only [hd, if_pos, Flow.state] at he
        exact Or.inl he
      · simp [hd, Flow.state] at he
        rcases he with he | he
        · exact Or.inl he
        · exact Or.inr (by simp [he]; omega)
  | cons r rest ih =>
      intro now job tr e he
      rw [convLoop] at he
      by_cases hd : dl - now < MIN_TIME_TO_START_REQUEST_MS
      · simp only [hd, if_pos, Flow.state] at he
        exact Or.inl he
      · have hmem : e ∈ tr ∨ e = (⟨.convSearch, dl - now⟩ : CallEvent) →
            e ∈ tr ∨ (e.kind = .convSearch ∧
              MIN_TIME_TO_START_REQUEST_MS ≤ e.timeLeft) := by
          intro hm
          rcases hm with h1 | h1
          · exact Or.inl h1
          · exact Or.inr (by simp [h1]; omega)
        cases r with
        | abortErr d =>
            by_cases h3 : 3 ≤ job.consecutiveAbortErrors + 1 <;>
              · simp [hd, h3, Flow.state] at he
                exact hmem he
        | httpErr d m =>
            simp [hd, Flow.state] at he
            exact hmem he
        | okReply d data =>
            cases hcur : data.nextCursor with
            | none =>
                simp [hd, hcur, Flow.state] at he
                exact hmem he
            | some c =>
                by_cases hemp : data.conversations.isEmpty
                · simp [hd, hcur, hemp, Flow.state] at he
                  exact hmem he
                · have ih' := ih (now + d) (processPage job data.conversations (some c))
                    (tr ++ [⟨.convSearch, dl - now⟩]) e
                  simp only [Flow.state] at ih'
                  simp [hd, hcur, hemp, Flow.state] at he
                  rcases ih' he with h1 | h1
                  · rcases List.mem_append.mp h1 with h2 | h2
                    · exact Or.inl h2
                    · exact hmem (Or.inr (List.mem_singleton.mp h2))
                  · exact Or.inr h1

theorem callRemote_job (kind : CallKind) (dl : ℤ) (s : MachineState) :
    (callRemote kind dl s).2.job = s.job := by
  rcases henv : s.env with - | ⟨r, rest⟩ <;> simp [callRemote, henv]

theorem callRemote_trace (kind : CallKind) (dl : ℤ) (s : MachineState) :
    (callRemote kind dl s).2.trace =
      s.trace ++ [{ kind := kind, timeLeft := dl - s.now }] := by
  rcases henv : s.env with - | ⟨r, rest⟩ <;> simp [callRemote, henv]

theorem hydrateGo_proj (dl : ℤ) (fuel : ℕ) (missing : List String)
    (s : MachineState) :
    (hydrateGo dl fuel missing s).state.job.phase = s.job.phase ∧
    (hydrateGo dl fuel missing s).state.job.status = s.job.status ∧
    (hydrateGo dl fuel missing s).state.job.startingAfter = s.job.startingAfter ∧
    (hydrateGo dl fuel missing s).state.job.consecutiveAbortErrors =
      s.job.consecutiveAbortErrors ∧
    (hydrateGo dl fuel missing s).state.job.memberIds = s.job.memberIds := by
  induction fuel, missing, s using hydrateGo.induct dl with
  | case1 fuel s =>
      rw [hydrateGo]
      simp [Flow.state]
  | case2 s =>
      rw [hydrateGo]
      simp [Flow.state]
  | case3 fuel id0 rest0 s h =>
      rw [hydrateGo]
      simp [h, Flow.state]
  | case4 fuel id0 rest0 s h s1 d x =>
      have hx : s1.job = s.job := by
        have := callRemote_job .contactsSearch dl s
        rw [x] at this
        exact this
      rw [hydrateGo]
      simp [h, x, Flow.state, hx]
  | case5 fuel id0 rest0 s h s1 d m x =>
      have hx : s1.job = s.job := by
        have := callRemote_job .contactsSearch dl s
        rw [x] at this
        exact this
      rw [hydrateGo]
      simp [h, x, Flow.state, hx]
  | case6 fuel id0 rest0 s h chunk s1 durMs data contacts returnedIds cache1 cache2 x ih =>
      have hx : s1.job = s.job := by
        have := callRemote_job .contactsSearch dl s
        rw [x] at this
        exact this
      rw [hydrateGo]
      simp only [h, if_neg, x, Flow.state] at ih ⊢
      refine ⟨ih.1.trans ?_, ih.2.1.trans ?_, ih.2.2.1.trans ?_,
        ih.2.2.2.1.trans ?_, ih.2.2.2.2.trans ?_⟩ <;> simp [hx]

theorem hydrateLoop_proj (dl : ℤ) (missing : List String) (s : MachineState) :
    (hydrateLoop dl missing s).state.job.phase = s.job.phase ∧
    (hydrateLoop dl missing s).state.job.status = s.job.status ∧
    (hydrateLoop dl missing s).state.job.startingAfter = s.job.startingAfter ∧
    (hydrateLoop dl missing s).state.job.consecutiveAbortErrors =
      s.job.consecutiveAbortErrors ∧
    (hydrateLoop dl missing s).state.job.memberIds = s.job.memberIds :=
  hydrateGo_proj dl missing.length missing s

theorem hydrateGo_trace (dl : ℤ) (fuel : ℕ) (missing : List String)
    (s : MachineState) :
    ∀ e ∈ (hydrateGo dl fuel missing s).state.trace,
      e ∈ s.trace ∨
        (e.kind = .contactsSearch ∧ MIN_TIME_TO_START_REQUEST_MS ≤ e.timeLeft) := by
  induction fuel, missing, s using hydrateGo.induct dl with
  | case1 fuel s =>
      intro e he
      rw [hydrateGo] at he
      simp only [Flow.state] at he
      exact Or.inl he
  | case2 s =>
      intro e he
      rw [hydrateGo] at he
      simp only [Flow.state] at he
      exact Or.inl he
  | case3 fuel id0 rest0 s h =>
      intro e he
      rw [hydrateGo] at he
      simp only [h, if_pos, Flow.state] at he
      exact Or.inl he
  | case4 fuel id0 rest0 s h s1 d x =>
      intro e he
      have hx : s1.trace =
          s.trace ++ [(⟨.contactsSearch, dl - s.now⟩ : CallEvent)] := by
        have := callRemote_trace .contactsSearch dl s
        rw [x] at this
        exact this
      rw [hydrateGo] at he
      simp [h, x, Flow.state, hx] at he
      rcases he with he | he
      · exact Or.inl he
      · exact Or.inr (by simp [he]; omega)
  | case5 fuel id0 rest0 s h s1 d m x =>
      intro e he
      have hx : s1.trace =
          s.trace ++ [(⟨.contactsSearch, dl - s.now⟩ : CallEvent)] := by
        have := callRemote_trace .contactsSearch dl s
        rw [x] at this
        exact this
      rw [hydrateGo] at he
      simp [h, x, Flow.state, hx] at he
      rcases he with he | he
      · exact Or.inl he
      · exact Or.inr (by simp [he]; omega)
  | case6 fuel id0 rest0 s h chunk s1 durMs data contacts returnedIds cache1 cache2 x ih =>
      intro e he
      have hx : s1.trace =
          s.trace ++ [(⟨.contactsSearch, dl - s.now⟩ : CallEvent)] := by
        have := callRemote_trace .contactsSearch dl s
        rw [x] at this
        exact this
      rw [hydrateGo] at he
      simp only [h, if_neg, x, Flow.state] at he ih
      rcases ih e he with h1 | h1
      · rw [hx] at h1
        rcases List.mem_append.mp h1 with h2 | h2
        · exact Or.inl h2
        · have := List.mem_singleton.mp h2
          exact Or.inr (by simp [this]; omega)
      · exact Or.inr h1

theorem hydrateLoop_trace (dl : ℤ) (missing : List String) (s : MachineState) :
    ∀ e ∈ (hydrateLoop dl missing s).state.trace,
      e ∈ s.trace ∨
        (e.kind = .contactsSearch ∧ MIN_TIME_TO_START_REQUEST_MS ≤ e.timeLeft) :=
  hydrateGo_trace dl missing.length missing s

theorem hydrateContactsByIds_proj (dl : ℤ) (ids : List String) (s : MachineState) :
    (hydrateContactsByIds dl ids s).state.job.phase = s.job.phase ∧
    (hydrateContactsByIds dl ids s).state.job.status = s.job.status ∧
    (hydrateContactsByIds dl ids s).state.job.startingAfter = s.job.startingAfter ∧
    (hydrateContactsByIds dl ids s).state.job.consecutiveAbortErrors =
      s.job.consecutiveAbortErrors := by
  rcases hfm : filterMissing s.now s.job.contactCache (uniqueIds ids)
    with ⟨missing, cache1⟩
  by_cases hemp : missing.isEmpty
  · simp [hydrateContactsByIds, hfm, hemp, HydrateOut.state]
  · have hl := hydrateLoop_proj dl missing
      { s with job := { s.job with contactCache := cache1 } }
    cases hhl : hydrateLoop dl missing
      { s with job := { s.job with contactCache := cache1 } } with
    | thrown s2 e =>
        rw [hhl] at hl
        simp only [Flow.state] at hl
        simp [hydrateContactsByIds, hfm, hemp, hhl, HydrateOut.state, hl.1,
          hl.2.1, hl.2.2.1, hl.2.2.2.1]
    | ok s2 =>
        rw [hhl] at hl
        simp only [Flow.state] at hl
        rcases hcm : countMissingFrom s2.now s2.job.contactCache s2.job.memberIds
          with ⟨remaining, cache2⟩
        simp [hydrateContactsByIds, hfm, hemp, hhl, hcm, HydrateOut.state, hl.1,
          hl.2.1, hl.2.2.1, hl.2.2.2.1]

theorem hydrateContactsByIds_trace (dl : ℤ) (ids : List String) (s : MachineState) :
    ∀ e ∈ (hydrateContactsByIds dl ids s).state.trace,
      e ∈ s.trace ∨
        (e.kind = .contactsSearch ∧ MIN_TIME_TO_START_REQUEST_MS ≤ e.timeLeft) := by
  intro e he
  rcases hfm : filterMissing s.now s.job.contactCache (uniqueIds ids)
    with ⟨missing, cache1⟩
  by_cases hemp : missing.isEmpty
  · simp [hydrateContactsByIds, hfm, hemp, HydrateOut.state] at he
    exact Or.inl he
  · have hl := hydrateLoop_trace dl missing
      { s with job := { s.job with contactCache := cache1 } }
    cases hhl : hydrateLoop dl missing
      { s with job := { s.job with contactCache := cache1 } } with
    | thrown s2 er =>
        rw [hhl] at hl
        simp only [Flow.state] at hl
        simp only [hydrateContactsByIds, hfm, hemp, hhl, HydrateOut.state,
          Bool.false_eq_true, if_neg] at he
        exact hl e he
    | ok s2 =>
        rw [hhl] at hl
        simp only [Flow.state] at hl
        rcases hcm : countMissingFrom s2.now s2.job.contactCache s2.job.memberIds
          with ⟨remaining, cache2⟩
        simp only [hydrateContactsByIds, hfm, hemp, hhl, hcm, HydrateOut.state,
          Bool.false_eq_true, if_neg] at he
        exact hl e he

theorem contactsPhase_proj (dl : ℤ) (s : MachineState) :
    (contactsPhase dl s).state.job.status = s.job.status ∧
    (contactsPhase dl s).state.job.startingAfter = s.job.startingAfter ∧
    ((contactsPhase dl s).state.job.phase = s.job.phase ∨
      (s.job.phase = .contacts ∧ (contactsPhase dl s).state.job.phase = .finalize)) := by
  by_cases hph : s.job.phase = .contacts
  · have hp := hydrateContactsByIds_proj dl s.job.memberIds s
    cases hh : hydrateContactsByIds dl s.job.memberIds s with
    | okH s1 remaining =>
        rw [hh] at hp
        simp only [HydrateOut.state] at hp
        by_cases hr : remaining = 0
        · simp [contactsPhase, hph, hh, hr, Flow.state, hp.2.1, hp.2.2.1]
        · simp [contactsPhase, hph, hh, hr, Flow.state, hp.1, hp.2.1, hp.2.2.1]
    | errH s1 er =>
        rw [hh] at hp
        simp only [HydrateOut.state] at hp
        cases er with
        | abortE =>
            by_cases h3 : 3 ≤ s1.job.consecutiveAbortErrors + 1 <;>
              simp [contactsPhase, hph, hh, h3, Flow.state, hp.1, hp.2.1, hp.2.2.1]
        | remoteE m =>
            simp [contactsPhase, hph, hh, Flow.state, hp.1, hp.2.1, hp.2.2.1]
  · simp [contactsPhase, hph, Flow.state]

theorem contactsPhase_trace (dl : ℤ) (s : MachineState) :
    ∀ e ∈ (contactsPhase dl s).state.trace,
      e ∈ s.trace ∨
        (e.kind = .contactsSearch ∧ MIN_TIME_TO_START_REQUEST_MS ≤ e.timeLeft) := by
  intro e he
  by_cases hph : s.job.phase = .contacts
  · have ht := hydrateContactsByIds_trace dl s.job.memberIds s
    cases hh : hydrateContactsByIds dl s.job.memberIds s with
    | okH s1 remaining =>
        rw [hh] at ht
        simp only [HydrateOut.state] at ht
        by_cases hr : remaining = 0 <;>
          · simp only [contactsPhase, hph, hh, hr, if_pos, if_neg, Flow.state,
              reduceCtorEq, reduceIte] at he
            exact ht e he
    | errH s1 er =>
        rw [hh] at ht
        simp only [HydrateOut.state] at ht
        cases er with
        | abortE =>
            by_cases h3 : 3 ≤ s1.job.consecutiveAbortErrors + 1 <;>
              · simp only [contactsPhase, hph, hh, h3, if_pos, if_neg, Flow.state,
                  reduceCtorEq, reduceIte] at he
                exact ht e he
        | remoteE m =>
            simp only [contactsPhase, hph, hh, Flow.state] at he
            exact ht e he
  · simp only [contactsPhase, hph, Bool.false_eq_true, if_neg, Flow.state,
      reduceCtorEq, reduceIte] at he
    exact Or.inl he

theorem finalizePhase_proj (dl : ℤ) (s : MachineState) :
    (finalizePhase dl s).state.job.startingAfter = s.job.startingAfter ∧
    ((finalizePhase dl s).state.job.phase = s.job.phase ∨
      (s.job.phase = .finalize ∧ (finalizePhase dl s).state.job.phase = .complete ∧
        (finalizePhase dl s).state.job.status = .complete)) ∧
    ((finalizePhase dl s).state.job.status = s.job.status ∨
      (finalizePhase dl s).state.job.status = .complete) := by
  by_cases hph : s.job.phase = .finalize
  · have hp := fetchAdminsCached_proj .adminsFinal dl s
    cases hf : fetchAdminsCached .adminsFinal dl s with
    | thrown s1 er =>
        rw [hf] at hp
        simp only [Flow.state] at hp
        simp [finalizePhase, hph, hf, Flow.state, hp.1, hp.2.1, hp.2.2.1]
    | ok s1 =>
        rw [hf] at hp
        simp only [Flow.state] at hp
        rcases hbm : buildMembers (s.now.fdiv 1000) s1.now
          ((s1.job.adminCache.map Prod.snd).getD []) s1.job.memberAgg
          s1.job.contactCache with ⟨rows, cache1⟩
        simp [finalizePhase, hph, hf, hbm, Flow.state, hp.2.2.1, hph]
  · simp [finalizePhase, hph, Flow.state]

theorem finalizePhase_trace (dl : ℤ) (s : MachineState) :
    ∀ e ∈ (finalizePhase dl s).state.trace,
      e ∈ s.trace ∨ e.kind = .adminsFinal := by
  intro e he
  by_cases hph : s.job.phase = .finalize
  · have ht := fetchAdminsCached_trace .adminsFinal dl s
    cases hf : fetchAdminsCached .adminsFinal dl s with
    | thrown s1 er =>
        rw [hf] at ht
        simp only [Flow.state] at ht
        simp only [finalizePhase, hph, hf, if_pos, Flow.state, reduceIte] at he
        rcases ht e he with h1 | h1
        · exact Or.inl h1
        · exact Or.inr h1.1
    | ok s1 =>
        rw [hf] at ht
        simp only [Flow.state] at ht
        rcases hbm : buildMembers (s.now.fdiv 1000) s1.now
          ((s1.job.adminCache.map Prod.snd).getD []) s1.job.memberAgg
          s1.job.contactCache with ⟨rows, cache1⟩
        simp only [finalizePhase, hph, hf, hbm, if_pos, Flow.state, reduceIte] at he
        rcases ht e he with h1 | h1
        · exact Or.inl h1
        · exact Or.inr h1.1
  · simp only [finalizePhase, hph, Bool.false_eq_true, if_neg, Flow.state,
      reduceCtorEq, reduceIte] at he
    exact Or.inl he

theorem countMissing_proj (nowMs : ℤ) (job : Job) :
    (countMissing nowMs job).2.phase = job.phase ∧
    (countMissing nowMs job).2.status = job.status ∧
    (countMissing nowMs job).2.startingAfter = job.startingAfter ∧
    (countMissing nowMs job).2.consecutiveAbortErrors =
      job.consecutiveAbortErrors := by
  rcases hcm : countMissingFrom nowMs job.contactCache job.memberIds
    with ⟨n, cache⟩
  simp [countMissing, hcm]

theorem warmAdmins_proj (dl : ℤ) (s0 : MachineState) :
    (warmAdmins dl s0).state.job.phase = s0.job.phase ∧
    (warmAdmins dl s0).state.job.status = s0.job.status ∧
    (warmAdmins dl s0).state.job.startingAfter = s0.job.startingAfter ∧
    (warmAdmins dl s0).state.job.consecutiveAbortErrors =
      s0.job.consecutiveAbortErrors := by
  by_cases hg : MIN_TIME_TO_START_REQUEST_MS ≤ dl - s0.now
  · have := fetchAdminsCached_proj .adminsWarm dl s0
    simpa [warmAdmins, hg] using this
  · simp [warmAdmins, hg, Flow.state]

theorem warmAdmins_trace (dl : ℤ) (s0 : MachineState) :
    ∀ e ∈ (warmAdmins dl s0).state.trace,
      e ∈ s0.trace ∨
        (e.kind = .adminsWarm ∧ MIN_TIME_TO_START_REQUEST_MS ≤ e.timeLeft) := by
  intro e he
  by_cases hg : MIN_TIME_TO_START_REQUEST_MS ≤ dl - s0.now
  · rw [warmAdmins, if_pos hg] at he
    rcases fetchAdminsCached_trace .adminsWarm dl s0 e he with h | h
    · exact Or.inl h
    · exact Or.inr ⟨h.1, by rw [h.2]; exact hg⟩
  · rw [warmAdmins, if_neg hg] at he
    exact Or.inl he

theorem convDispatch_result (dl : ℤ) (s : MachineState) :
    (convDispatch dl s).state.job.status = s.job.status ∧
    ((convDispatch dl s).state.job.phase = s.job.phase ∨
      (s.job.phase = .conversations ∧ (convDispatch dl s).state.job.phase = .contacts ∧
        (convDispatch dl s).state.job.startingAfter = none)) := by
  by_cases hph : s.job.phase = .conversations
  · have h := convLoop_result dl s.env s.now s.job s.trace hph
    rw [convDispatch, if_pos hph]
    refine ⟨h.1, ?_⟩
    rcases h.2 with h1 | h1
    · exact Or.inl (by rw [h1, hph])
    · exact Or.inr ⟨hph, h1.1, h1.2⟩
  · rw [convDispatch, if_neg hph]
    exact ⟨rfl, Or.inl rfl⟩

theorem convDispatch_trace (dl : ℤ) (s : MachineState) :
    ∀ e ∈ (convDispatch dl s).state.trace,
      e ∈ s.trace ∨
        (e.kind = .convSearch ∧ MIN_TIME_TO_START_REQUEST_MS ≤ e.timeLeft) := by
  intro e he
  by_cases hph : s.job.phase = .conversations
  · rw [convDispatch, if_pos hph] at he
    exact convLoop_trace dl s.env s.now s.job s.trace e he
  · rw [convDispatch, if_neg hph] at he
    exact Or.inl he

theorem tail_phase (dl : ℤ) (s : MachineState) :
    (bindFlow (contactsPhase dl s) (finalizePhase dl)).state.job.startingAfter =
      s.job.startingAfter ∧
    phaseRank s.job.phase ≤
      phaseRank (bindFlow (contactsPhase dl s) (finalizePhase dl)).state.job.phase ∧
    (s.job.phase = .conversations →
      (bindFlow (contactsPhase dl s) (finalizePhase dl)).state.job.phase =
        .conversations) := by
  have hcp := contactsPhase_proj dl s
  cases hc : contactsPhase dl s with
  | thrown s2 er =>
      rw [hc] at hcp
      simp only [Flow.state] at hcp
      simp only [bindFlow, Flow.state]
      refine ⟨hcp.2.1, ?_, ?_⟩
      · rcases hcp.2.2 with h1 | h1
        · rw [h1]
        · rw [h1.1, h1.2]
          simp [phaseRank]
      · intro hconv
        rcases hcp.2.2 with h1 | h1
        · rw [h1, hconv]
        · rw [hconv] at h1
          exact absurd h1.1 (by decide)
  | ok s2 =>
      rw [hc] at hcp
      simp only [Flow.state] at hcp
      have hfp := finalizePhase_proj dl s2
      simp only [bindFlow]
      refine ⟨?_, ?_, ?_⟩
      · rw [hfp.1, hcp.2.1]
      · have h1 : phaseRank s.job.phase ≤ phaseRank s2.job.phase := by
          rcases hcp.2.2 with h1 | h1
          · rw [h1]
          · rw [h1.1, h1.2]
            simp [phaseRank]
        have h2 : phaseRank s2.job.phase ≤
            phaseRank (finalizePhase dl s2).state.job.phase := by
          rcases hfp.2.1 with h2 | h2
          · rw [h2]
          · rw [h2.1, h2.2.1]
            simp [phaseRank]
        exact le_trans h1 h2
      · intro hconv
        have h2 : s2.job.phase = .conversations := by
          rcases hcp.2.2 with h1 | h1
          · rw [h1, hconv]
          · rw [hconv] at h1
            exact absurd h1.1 (by decide)
        rcases hfp.2.1 with h3 | h3
        · rw [h3, h2]
        · rw [h2] at h3
          exact absurd h3.1 (by decide)

theorem tail_trace (dl : ℤ) (s : MachineState) :
    ∀ e ∈ (bindFlow (contactsPhase dl s) (finalizePhase dl)).state.trace,
      e ∈ s.trace ∨
        (e.kind = .contactsSearch ∧ MIN_TIME_TO_START_REQUEST_MS ≤ e.timeLeft) ∨
        e.kind = .adminsFinal := by
  intro e he
  simp only [bindFlow] at he
  cases hc : contactsPhase dl s with
  | thrown s2 er =>
      rw [hc] at he
      simp only [Flow.state] at he
      have := contactsPhase_trace dl s e
      rw [hc] at this
      simp only [Flow.state] at this
      rcases this he with h | h
      · exact Or.inl h
      · exact Or.inr (Or.inl h)
  | ok s2 =>
      rw [hc] at he
      rcases finalizePhase_trace dl s2 e he with h | h
      · have := contactsPhase_trace dl s e
        rw [hc] at this
        simp only [Flow.state] at this
        rcases this h with h1 | h1
        · exact Or.inl h1
        · exact Or.inr (Or.inl h1)
      · exact Or.inr (Or.inr h)

theorem stepTry_phase (dl : ℤ) (s0 : MachineState) :
    phaseRank s0.job.phase ≤ phaseRank (stepTry dl s0).state.job.phase ∧
    (s0.job.phase = .conversations →
      (stepTry dl s0).state.job.phase ≠ .conversations →
      (stepTry dl s0).state.job.startingAfter = none) := by
  have hw := warmAdmins_proj dl s0
  cases hwf : warmAdmins dl s0 with
  | thrown s1 er =>
      rw [hwf] at hw
      simp only [Flow.state] at hw
      simp only [stepTry, hwf, bindFlow, Flow.state]
      refine ⟨by rw [hw.1], ?_⟩
      intro hconv hne
      exact absurd (hw.1.trans hconv) hne
  | ok s1 =>
      rw [hwf] at hw
      simp only [Flow.state] at hw
      have hcd := convDispatch_result dl s1
      cases hcf : convDispatch dl s1 with
      | thrown s2 er =>
          rw [hcf] at hcd
          simp only [Flow.state] at hcd
          simp only [stepTry, hwf, hcf, bindFlow, Flow.state]
          refine ⟨?_, ?_⟩
          · rcases hcd.2 with h1 | h1
            · rw [h1, hw.1]
            · rw [h1.2.1]
              rw [hw.1] at h1
              rw [h1.1]
              simp [phaseRank]
          · intro hconv hne
            rcases hcd.2 with h1 | h1
            · exact absurd (h1.trans (hw.1.trans hconv)) hne
            · exact h1.2.2
      | ok s2 =>
          rw [hcf] at hcd
          simp only [Flow.state] at hcd
          have htl := tail_phase dl s2
          simp only [stepTry, hwf, hcf, bindFlow] at htl ⊢
          refine ⟨?_, ?_⟩
          · have hr1 : phaseRank s0.job.phase ≤ phaseRank s2.job.phase := by
              rcases hcd.2 with h1 | h1
              · rw [h1, hw.1]
              · have h0c : s0.job.phase = .conversations := hw.1.symm.trans h1.1
                rw [h1.2.1, h0c]
                simp [phaseRank]
            exact le_trans hr1 htl.2.1
          · intro hconv hne
            rcases hcd.2 with h1 | h1
            · have hs2conv : s2.job.phase = .conversations := h1.trans (hw.1.trans hconv)
              exact absurd (htl.2.2 hs2conv) hne
            · rw [htl.1, h1.2.2]

theorem stepTry_trace (dl : ℤ) (s0 : MachineState)
    (h0 : ∀ e ∈ s0.trace, GoodEv e) :
    ∀ e ∈ (stepTry dl s0).state.trace, GoodEv e := by
  have h1 : ∀ e ∈ (warmAdmins dl s0).state.trace, GoodEv e := by
    intro e he
    rcases warmAdmins_trace dl s0 e he with h | h
    · exact h0 e h
    · exact Or.inr h.2
  cases hwf : warmAdmins dl s0 with
  | thrown s1 er =>
      rw [hwf] at h1
      simp only [Flow.state] at h1
      simp only [stepTry, hwf, bindFlow, Flow.state]
      exact h1
  | ok s1 =>
      rw [hwf] at h1
      simp only [Flow.state] at h1
      have h2 : ∀ e ∈ (convDispatch dl s1).state.trace, GoodEv e := by
        intro e he
        rcases convDispatch_trace dl s1 e he with h | h
        · exact h1 e h
        · exact Or.inr h.2
      cases hcf : convDispatch dl s1 with
      | thrown s2 er =>
          rw [hcf] at h2
          simp only [Flow.state] at h2
          simp only [stepTry, hwf, hcf, bindFlow, Flow.state]
          exact h2
      | ok s2 =>
          rw [hcf] at h2
          simp only [Flow.state] at h2
          intro e he
          simp only [stepTry, hwf, hcf, bindFlow] at he
          rcases tail_trace dl s2 e he with h | h | h
          · exact h2 e h
          · exact Or.inr h.2
          · exact Or.inl h

theorem step_deadline_gap (now0 : ℤ) :
    MIN_TIME_TO_START_REQUEST_MS ≤ (now0 + STEP_BUDGET_MS - STEP_SAFETY_MS) - now0 ∧
    ¬ ((now0 + STEP_BUDGET_MS - STEP_SAFETY_MS) - now0 <
        MIN_TIME_TO_START_REQUEST_MS) := by
  simp only [MIN_TIME_TO_START_REQUEST_MS, STEP_BUDGET_MS, STEP_SAFETY_MS]
  omega

theorem stepJob_ok (env : List RemoteReply) (now0 : ℤ) (job0 : Job)
    (s : MachineState)
    (h : stepTry (now0 + STEP_BUDGET_MS - STEP_SAFETY_MS)
        { env := env, now := now0
          job := { job0 with status := .running, updatedAtMs := now0 }
          trace := [] } = .ok s) :
    (stepJob env now0 job0).job =
      (countMissing s.now { s.job with updatedAtMs := s.now }).2 ∧
    (stepJob env now0 job0).trace = s.trace := by
  simp only [stepJob]
  rw [h]
  exact ⟨rfl, rfl⟩

theorem stepJob_thrown (env : List RemoteReply) (now0 : ℤ) (job0 : Job)
    (s : MachineState) (er : ErrKind)
    (h : stepTry (now0 + STEP_BUDGET_MS - STEP_SAFETY_MS)
        { env := env, now := now0
          job := { job0 with status := .running, updatedAtMs := now0 }
          trace := [] } = .thrown s er) :
    (stepJob env now0 job0).job =
      { s.job with
          status := .error
          phase := .complete
          error := some er.message
          updatedAtMs := s.now } ∧
    (stepJob env now0 job0).trace = s.trace := by
  simp only [stepJob]
  rw [h]
  exact ⟨rfl, rfl⟩

/-- C3: one step never moves the phase backwards along
`conversations → contacts → finalize → complete`, and the only way a
step leaves the `conversations` phase other than by failing
(`status = error`, which forces `phase = complete`) is with the resume
cursor exhausted (`startingAfter = none`). -/
theorem phase_monotone_step (env : List RemoteReply) (now0 : ℤ) (job0 : Job) :
    phaseRank job0.phase ≤ phaseRank (stepJob env now0 job0).job.phase ∧
    ((stepJob env now0 job0).job.phase ≠ job0.phase → job0.phase = .conversations →
      (stepJob env now0 job0).job.status = .error ∨
      (stepJob env now0 job0).job.startingAfter = none) := by
  have hst := stepTry_phase (now0 + STEP_BUDGET_MS - STEP_SAFETY_MS)
    { env := env, now := now0
      job := { job0 with status := .running, updatedAtMs := now0 }
      trace := [] }
  simp only at hst
  cases hres : stepTry (now0 + STEP_BUDGET_MS - STEP_SAFETY_MS)
      { env := env, now := now0
        job := { job0 with status := .running, updatedAtMs := now0 }
        trace := [] } with
  | ok s =>
      rw [hres] at hst
      simp only [Flow.state] at hst
      obtain ⟨hj, -⟩ := stepJob_ok env now0 job0 s hres
      have hcm := countMissing_proj s.now { s.job with updatedAtMs := s.now }
      rw [← hj] at hcm
      simp only at hcm
      constructor
      · rw [hcm.1]
        exact hst.1
      · intro hne hconv
        right
        rw [hcm.2.2.1]
        refine hst.2 hconv ?_
        intro habs
        rw [hcm.1] at hne
        exact hne (habs.trans hconv.symm)
  | thrown s er =>
      rw [hres] at hst
      simp only [Flow.state] at hst
      obtain ⟨hj, -⟩ := stepJob_thrown env now0 job0 s er hres
      rw [hj]
      simp only
      constructor
      · cases job0.phase <;> simp [phaseRank]
      · intro _ _
        exact Or.inl trivial

/-- Witness for `phase_monotone_step`: a fresh job with a single
cursor-less conversations page advances without regressing, and the
conversations exit indeed happens with the cursor exhausted. -/
theorem phase_monotone_step_witness :
    let env : List RemoteReply := [.abortErr 10]
    let job : Job := createJob "j3" 0 30 none
    phaseRank job.phase ≤ phaseRank (stepJob env 0 job).job.phase ∧
    ((stepJob env 0 job).job.phase ≠ job.phase →
      (stepJob env 0 job).job.status = .error ∨
      (stepJob env 0 job).job.startingAfter = none) := by
  intro env job
  have h := phase_monotone_step env 0 job
  exact ⟨h.1, fun hne => h.2 hne (by decide)⟩

/-! ### C1: deadline respect -/

/-- C1 (amended): no outbound call other than the finalize-phase
admin-directory refresh is ever started with less than
`MIN_TIME_TO_START_REQUEST_MS` left before the step deadline; the
warm-up, conversations-search and contact-hydration calls are all
guarded. (The finalize-phase `fetchAdminsCached` call is excluded: the
code issues it without the guard.) -/
theorem deadline_respect_amended (env : List RemoteReply) (now0 : ℤ) (job0 : Job) :
    ∀ e ∈ (stepJob env now0 job0).trace, e.kind ≠ CallKind.adminsFinal →
      MIN_TIME_TO_START_REQUEST_MS ≤ e.timeLeft := by
  intro e he hk
  have heq : (stepJob env now0 job0).trace =
      (stepTry (now0 + STEP_BUDGET_MS - STEP_SAFETY_MS)
        { env := env, now := now0
          job := { job0 with status := .running, updatedAtMs := now0 }
          trace := [] }).state.trace := by
    cases hres : stepTry (now0 + STEP_BUDGET_MS - STEP_SAFETY_MS)
        { env := env, now := now0
          job := { job0 with status := .running, updatedAtMs := now0 }
          trace := [] } with
    | ok s =>
        simpa [Flow.state] using (stepJob_ok env now0 job0 s hres).2
    | thrown s er =>
        simpa [Flow.state] using (stepJob_thrown env now0 job0 s er hres).2
  rw [heq] at he
  have htr := stepTry_trace (now0 + STEP_BUDGET_MS - STEP_SAFETY_MS)
    { env := env, now := now0
      job := { job0 with status := .running, updatedAtMs := now0 }
      trace := [] }
    (by intro e' he'; simp at he')
  rcases htr e he with h | h
  · exact absurd h hk
  · exact h

/-- Witness for `deadline_respect_amended`: on a fresh job whose single
conversations page exhausts the cursor, the conversations-search call in
the trace started with at least the threshold left. -/
theorem deadline_respect_amended_witness :
    let env : List RemoteReply := [.okReply 100 {}]
    let job : Job := { createJob "j4" 0 30 none with
                         adminCache := some (0, []) }
    (⟨.convSearch, 18750⟩ : CallEvent) ∈ (stepJob env 0 job).trace ∧
    MIN_TIME_TO_START_REQUEST_MS ≤ (18750 : ℤ) := by
  intro env job
  have hmem : (⟨.convSearch, 18750⟩ : CallEvent) ∈ (stepJob env 0 job).trace := by
    decide
  exact ⟨hmem, deadline_respect_amended env 0 job _ hmem (by decide)⟩

/-- Counterexample to C1 as stated: stepping `cexJobC1` at time
1 000 000 ms starts exactly one outbound call with less than
`MIN_TIME_TO_START_REQUEST_MS` = 4500 ms left — the finalize-phase
admin-directory refresh, started with only 3750 ms to the deadline
(the admin cache, fresh at the step start, crossed its TTL after the
15 s contact call, and the finalize phase refreshes it without the
minimum-time-to-start guard). -/
theorem deadline_respect_cex :
    ((stepJob cexEnvC1 1000000 cexJobC1).trace.filter
        (fun e => decide (e.timeLeft < MIN_TIME_TO_START_REQUEST_MS))).map
      CallEvent.kind = [CallKind.adminsFinal] ∧
    (stepJob cexEnvC1 1000000 cexJobC1).trace.map CallEvent.timeLeft =
      [18750, 3750] := by
  decide

/-! ### C2: transient-timeout (abort) handling -/

theorem fetchAdminsCached_fresh (kind : CallKind) (dl : ℤ) (s : MachineState)
    (h : adminCacheFresh s.now s.job.adminCache = true) :
    fetchAdminsCached kind dl s = .ok s := by
  simp [fetchAdminsCached, h]

theorem warmAdmins_run (dl : ℤ) (s : MachineState)
    (hg : MIN_TIME_TO_START_REQUEST_MS ≤ dl - s.now) :
    warmAdmins dl s = fetchAdminsCached .adminsWarm dl s := by
  simp [warmAdmins, hg]

theorem convDispatch_run (dl : ℤ) (s : MachineState)
    (h : s.job.phase = .conversations) :
    convDispatch dl s = convLoop dl s.env s.now s.job s.trace := by
  simp [convDispatch, h]

theorem contactsPhase_skip (dl : ℤ) (s : MachineState)
    (h : ¬ s.job.phase = .contacts) : contactsPhase dl s = .ok s := by
  simp [contactsPhase, h]

theorem finalizePhase_skip (dl : ℤ) (s : MachineState)
    (h : ¬ s.job.phase = .finalize) : finalizePhase dl s = .ok s := by
  simp [finalizePhase, h]

theorem convDispatch_skip (dl : ℤ) (s : MachineState)
    (h : ¬ s.job.phase = .conversations) : convDispatch dl s = .ok s := by
  simp [convDispatch, h]

theorem hydrate_abort_head (dl : ℤ) (s : MachineState) (d2 : ℕ)
    (env2 : List RemoteReply) (i : String)
    (hi : ¬ i = "") (hcc : s.job.contactCache = [])
    (henv : s.env = .abortErr d2 :: env2)
    (hd : ¬ dl - s.now < MIN_TIME_TO_START_REQUEST_MS) :
    hydrateContactsByIds dl [i] s =
      .errH { env := env2, now := s.now + d2
              job := { s.job with contactCache := [] }
              trace := s.trace ++ [⟨.contactsSearch, dl - s.now⟩] } .abortE := by
  have hl : hydrateLoop dl [i]
      { s with job := { s.job with contactCache := ([] : Cache) } } =
      .thrown { env := env2, now := s.now + d2
                job := { s.job with contactCache := ([] : Cache) }
                trace := s.trace ++ [⟨.contactsSearch, dl - s.now⟩] }
        .abortE := by
    unfold hydrateLoop
    rw [show ([i] : List String).length = 0 + 1 from rfl]
    rw [hydrateGo]
    rw [if_neg hd]
    simp [callRemote, henv, RemoteReply.durMs]
  simp only [hydrateContactsByIds]
  simp [uniqueIds, jsSetDedup, setAdd, hi, hcc, filterMissing, getCachedContact,
    lookupA, hl]

/-- Counterexample to C2 as stated: a fresh job (consecutive-failure
counter 0, no admin cache yet) whose very first outbound call — the
admin-cache warm-up — aborts. The claim predicts the counter becomes 1
and the step ends early with the same phase and status `running`; the
code instead fails the job immediately (`status = error`,
`phase = complete`) without touching the counter, because the warm-up
runs outside the abort-catching phase handlers. -/
theorem soft_retry_cex :
    (stepJob [.abortErr 100] 0 (createJob "c2" 0 30 none)).job.status =
      .error ∧
    (stepJob [.abortErr 100] 0 (createJob "c2" 0 30 none)).job.consecutiveAbortErrors = 0 ∧
    (stepJob [.abortErr 100] 0 (createJob "c2" 0 30 none)).job.phase =
      .complete := by
  decide

/-- C2 (amended): in the conversations phase and likewise in the
contacts phase an aborted outbound call increments the job's
consecutive-failure counter; while the counter stays below 3 the step
ends early with the same phase and status `running`, and when it
reaches 3 the job fails (`status = error`, `phase = complete`). Every
successfully processed conversations page resets the counter to zero,
and so does a successful contact hydration. Aborts raised by the
admin-directory fetch bypass the counter entirely: a warm-up abort
fails the job at once with the counter unchanged, and a finalize-phase
refresh abort fails the job with the counter still at the zero the
preceding successful hydration left. -/
theorem soft_retry_amended (env : List RemoteReply) (d : ℕ) (now0 t : ℤ)
    (job : Job) (m : List (String × AdminInfo))
    (hphase : job.phase = .conversations)
    (hcache : job.adminCache = some (t, m))
    (hfresh : now0 - t < ADMIN_CACHE_TTL_MS) :
    (job.consecutiveAbortErrors + 1 < 3 →
       (stepJob (.abortErr d :: env) now0 job).job.status = .running ∧
       (stepJob (.abortErr d :: env) now0 job).job.phase = .conversations ∧
       (stepJob (.abortErr d :: env) now0 job).job.consecutiveAbortErrors =
         job.consecutiveAbortErrors + 1) ∧
    (3 ≤ job.consecutiveAbortErrors + 1 →
       (stepJob (.abortErr d :: env) now0 job).job.status = .error ∧
       (stepJob (.abortErr d :: env) now0 job).job.phase = .complete) ∧
    (∀ (j : Job) (convs : List Conv) (cur : Option String),
       (processPage j convs cur).consecutiveAbortErrors = 0) ∧
    (∀ (env2 : List RemoteReply) (d2 : ℕ) (job2 : Job),
       job2.adminCache = none →
       (stepJob (.abortErr d2 :: env2) now0 job2).job.status = .error ∧
       (stepJob (.abortErr d2 :: env2) now0 job2).job.consecutiveAbortErrors =
         job2.consecutiveAbortErrors) ∧
    (∀ (env2 : List RemoteReply) (d2 : ℕ) (t2 : ℤ)
       (m2 : List (String × AdminInfo)) (i : String) (job2 : Job),
       job2.phase = .contacts →
       job2.adminCache = some (t2, m2) →
       now0 - t2 < ADMIN_CACHE_TTL_MS →
       job2.memberIds = [i] → ¬ i = "" → job2.contactCache = [] →
       (job2.consecutiveAbortErrors + 1 < 3 →
          (stepJob (.abortErr d2 :: env2) now0 job2).job.status = .running ∧
          (stepJob (.abortErr d2 :: env2) now0 job2).job.phase = .contacts ∧
          (stepJob (.abortErr d2 :: env2) now0 job2).job.consecutiveAbortErrors =
            job2.consecutiveAbortErrors + 1) ∧
       (3 ≤ job2.consecutiveAbortErrors + 1 →
          (stepJob (.abortErr d2 :: env2) now0 job2).job.status = .error ∧
          (stepJob (.abortErr d2 :: env2) now0 job2).job.phase = .complete)) ∧
    (∀ (dl2 : ℤ) (s : MachineState) (s1 : MachineState) (remaining : ℕ),
       s.job.phase = .contacts →
       hydrateContactsByIds dl2 s.job.memberIds s = .okH s1 remaining →
       (contactsPhase dl2 s).state.job.consecutiveAbortErrors = 0) ∧
    ((stepJob cexEnvC2fin 1000000 cexJobC2fin).job.status = .error ∧
     (stepJob cexEnvC2fin 1000000 cexJobC2fin).job.consecutiveAbortErrors = 0 ∧
     (stepJob cexEnvC2fin 1000000 cexJobC2fin).job.phase = .complete ∧
     (stepJob cexEnvC2fin 1000000 cexJobC2fin).trace.map CallEvent.kind =
       [CallKind.contactsSearch, CallKind.adminsFinal]) := by
  have gap := step_deadline_gap now0
  have hwarm : warmAdmins (now0 + STEP_BUDGET_MS - STEP_SAFETY_MS)
      { env := .abortErr d :: env, now := now0
        job := { job with status := .running, updatedAtMs := now0 }
        trace := [] } =
      .ok { env := .abortErr d :: env, now := now0
            job := { job with status := .running, updatedAtMs := now0 }
            trace := [] } := by
    rw [warmAdmins_run _ _ gap.1]
    refine fetchAdminsCached_fresh _ _ _ ?_
    show adminCacheFresh now0 job.adminCache = true
    rw [hcache]
    simpa [adminCacheFresh] using hfresh
  refine ⟨?_, ?_, ?_, ?_, ?_, ?_, ?_⟩
  · intro hlt
    have h3 : ¬ 3 ≤ job.consecutiveAbortErrors + 1 := by omega
    have hconv : convLoop (now0 + STEP_BUDGET_MS - STEP_SAFETY_MS)
        (.abortErr d :: env) now0
        { job with status := .running, updatedAtMs := now0 } [] =
        .ok { env := env, now := now0 + d
              job := { job with
                         status := .running
                         updatedAtMs := now0
                         consecutiveAbortErrors := job.consecutiveAbortErrors + 1 }
              trace := [⟨.convSearch,
                (now0 + STEP_BUDGET_MS - STEP_SAFETY_MS) - now0⟩] } := by
      rw [convLoop]
      simp [gap.2, h3]
    have hst : stepTry (now0 + STEP_BUDGET_MS - STEP_SAFETY_MS)
        { env := .abortErr d :: env, now := now0
          job := { job with status := .running, updatedAtMs := now0 }
          trace := [] } =
        .ok { env := env, now := now0 + d
              job := { job with
                         status := .running
                         updatedAtMs := now0
                         consecutiveAbortErrors := job.consecutiveAbortErrors + 1 }
              trace := [⟨.convSearch,
                (now0 + STEP_BUDGET_MS - STEP_SAFETY_MS) - now0⟩] } := by
      unfold stepTry
      rw [hwarm]
      simp only [bindFlow]
      rw [convDispatch_run _ _ (by exact hphase)]
      rw [hconv]
      simp only [bindFlow]
      rw [contactsPhase_skip _ _ (by
        show ¬ job.phase = JobPhase.contacts
        rw [hphase]
        decide)]
      simp only [bindFlow]
      rw [finalizePhase_skip _ _ (by
        show ¬ job.phase = JobPhase.finalize
        rw [hphase]
        decide)]
    obtain ⟨hjob, -⟩ := stepJob_ok (.abortErr d :: env) now0 job _ hst
    have hcm := countMissing_proj (now0 + d)
      { { job with
            status := .running
            updatedAtMs := now0
            consecutiveAbortErrors := job.consecutiveAbortErrors + 1 }
        with updatedAtMs := now0 + d }
    rw [← hjob] at hcm
    exact ⟨hcm.2.1, by rw [hcm.1]; exact hphase, hcm.2.2.2⟩
  · intro hge
    have hconv : convLoop (now0 + STEP_BUDGET_MS - STEP_SAFETY_MS)
        (.abortErr d :: env) now0
        { job with status := .running, updatedAtMs := now0 } [] =
        .thrown { env := env, now := now0 + d
                  job := { job with
                             status := .running
                             updatedAtMs := now0
                             consecutiveAbortErrors :=
                               job.consecutiveAbortErrors + 1 }
                  trace := [⟨.convSearch,
                    (now0 + STEP_BUDGET_MS - STEP_SAFETY_MS) - now0⟩] }
          .abortE := by
      rw [convLoop]
      simp [gap.2, hge]
    have hst : stepTry (now0 + STEP_BUDGET_MS - STEP_SAFETY_MS)
        { env := .abortErr d :: env, now := now0
          job := { job with status := .running, updatedAtMs := now0 }
          trace := [] } =
        .thrown { env := env, now := now0 + d
                  job := { job with
                             status := .running
                             updatedAtMs := now0
                             consecutiveAbortErrors :=
                               job.consecutiveAbortErrors + 1 }
                  trace := [⟨.convSearch,
                    (now0 + STEP_BUDGET_MS - STEP_SAFETY_MS) - now0⟩] }
          .abortE := by
      unfold stepTry
      rw [hwarm]
      simp only [bindFlow]
      rw [convDispatch_run _ _ (by exact hphase)]
      rw [hconv]
    obtain ⟨hjob, -⟩ := stepJob_thrown (.abortErr d :: env) now0 job _ _ hst
    rw [hjob]
    exact ⟨rfl, rfl⟩
  · intro j convs cur
    simp [processPage]
  · intro env2 d2 job2 hnone
    have hwnone : warmAdmins (now0 + STEP_BUDGET_MS - STEP_SAFETY_MS)
        { env := .abortErr d2 :: env2, now := now0
          job := { job2 with status := .running, updatedAtMs := now0 }
          trace := [] } =
        .thrown { env := env2, now := now0 + d2
                  job := { job2 with status := .running, updatedAtMs := now0 }
                  trace := [⟨.adminsWarm,
                    (now0 + STEP_BUDGET_MS - STEP_SAFETY_MS) - now0⟩] }
          .abortE := by
      rw [warmAdmins_run _ _ gap.1]
      have hfb : adminCacheFresh now0 job2.adminCache = false := by
        rw [hnone]
        rfl
      simp [fetchAdminsCached, hfb, callRemote, RemoteReply.durMs]
    have hst : stepTry (now0 + STEP_BUDGET_MS - STEP_SAFETY_MS)
        { env := .abortErr d2 :: env2, now := now0
          job := { job2 with status := .running, updatedAtMs := now0 }
          trace := [] } =
        .thrown { env := env2, now := now0 + d2
                  job := { job2 with status := .running, updatedAtMs := now0 }
                  trace := [⟨.adminsWarm,
                    (now0 + STEP_BUDGET_MS - STEP_SAFETY_MS) - now0⟩] }
          .abortE := by
      unfold stepTry
      rw [hwnone]
      simp only [bindFlow]
    obtain ⟨hjob, -⟩ := stepJob_thrown (.abortErr d2 :: env2) now0 job2 _ _ hst
    rw [hjob]
    exact ⟨rfl, rfl⟩
  · intro env2 d2 t2 m2 i job2 hph2 hc2 hf2 hmem hi hcc
    have hwarm2 : warmAdmins (now0 + STEP_BUDGET_MS - STEP_SAFETY_MS)
        { env := .abortErr d2 :: env2, now := now0
          job := { job2 with status := .running, updatedAtMs := now0 }
          trace := [] } =
        .ok { env := .abortErr d2 :: env2, now := now0
              job := { job2 with status := .running, updatedAtMs := now0 }
              trace := [] } := by
      rw [warmAdmins_run _ _ gap.1]
      refine fetchAdminsCached_fresh _ _ _ ?_
      show adminCacheFresh now0 job2.adminCache = true
      rw [hc2]
      simpa [adminCacheFresh] using hf2
    have hcd2 : convDispatch (now0 + STEP_BUDGET_MS - STEP_SAFETY_MS)
        { env := .abortErr d2 :: env2, now := now0
          job := { job2 with status := .running, updatedAtMs := now0 }
          trace := [] } =
        .ok { env := .abortErr d2 :: env2, now := now0
              job := { job2 with status := .running, updatedAtMs := now0 }
              trace := [] } := by
      refine convDispatch_skip _ _ ?_
      show ¬ job2.phase = JobPhase.conversations
      rw [hph2]
      decide
    have hh := hydrate_abort_head (now0 + STEP_BUDGET_MS - STEP_SAFETY_MS)
        { env := .abortErr d2 :: env2, now := now0
          job := { job2 with status := .running, updatedAtMs := now0 }
          trace := [] } d2 env2 i hi (by exact hcc) rfl (by exact gap.2)
    rw [hmem] at hh
    have hphR : ({ env := .abortErr d2 :: env2, now := now0
                   job := { job2 with status := .running, updatedAtMs := now0 }
                   trace := [] } : MachineState).job.phase = JobPhase.contacts :=
      hph2
    constructor
    · intro hlt2
      have h3 : ¬ 3 ≤ job2.consecutiveAbortErrors + 1 := by omega
      have hcp : contactsPhase (now0 + STEP_BUDGET_MS - STEP_SAFETY_MS)
          { env := .abortErr d2 :: env2, now := now0
            job := { job2 with status := .running, updatedAtMs := now0 }
            trace := [] } =
          .ok { env := env2, now := now0 + d2
                job := { job2 with
                           status := .running
                           updatedAtMs := now0
                           contactCache := []
                           consecutiveAbortErrors :=
                             job2.consecutiveAbortErrors + 1 }
                trace := [⟨.contactsSearch,
                  (now0 + STEP_BUDGET_MS - STEP_SAFETY_MS) - now0⟩] } := by
        unfold contactsPhase
        rw [if_pos hphR]
        simp [hmem, hh, h3]
      have hst : stepTry (now0 + STEP_BUDGET_MS - STEP_SAFETY_MS)
          { env := .abortErr d2 :: env2, now := now0
            job := { job2 with status := .running, updatedAtMs := now0 }
            trace := [] } =
          .ok { env := env2, now := now0 + d2
                job := { job2 with
                           status := .running
                           updatedAtMs := now0
                           contactCache := []
                           consecutiveAbortErrors :=
                             job2.consecutiveAbortErrors + 1 }
                trace := [⟨.contactsSearch,
                  (now0 + STEP_BUDGET_MS - STEP_SAFETY_MS) - now0⟩] } := by
        unfold stepTry
        rw [hwarm2]
        simp only [bindFlow]
        rw [hcd2]
        simp only [bindFlow]
        rw [hcp]
        simp only [bindFlow]
        rw [finalizePhase_skip _ _ (by
          show ¬ job2.phase = JobPhase.finalize
          rw [hph2]
          decide)]
      obtain ⟨hjob, -⟩ := stepJob_ok (.abortErr d2 :: env2) now0 job2 _ hst
      have hcm := countMissing_proj (now0 + d2)
        { { job2 with
              status := .running
              updatedAtMs := now0
              contactCache := []
              consecutiveAbortErrors := job2.consecutiveAbortErrors + 1 }
          with updatedAtMs := now0 + d2 }
      rw [← hjob] at hcm
      exact ⟨hcm.2.1, by rw [hcm.1]; exact hph2, hcm.2.2.2⟩
    · intro hge2
      have hcp : contactsPhase (now0 + STEP_BUDGET_MS - STEP_SAFETY_MS)
          { env := .abortErr d2 :: env2, now := now0
            job := { job2 with status := .running, updatedAtMs := now0 }
            trace := [] } =
          .thrown { env := env2, now := now0 + d2
                    job := { job2 with
                               status := .running
                               updatedAtMs := now0
                               contactCache := []
                               consecutiveAbortErrors :=
                                 job2.consecutiveAbortErrors + 1 }
                    trace := [⟨.contactsSearch,
                      (now0 + STEP_BUDGET_MS - STEP_SAFETY_MS) - now0⟩] }
            .abortE := by
        unfold contactsPhase
        rw [if_pos hphR]
        simp [hmem, hh, hge2]
      have hst : stepTry (now0 + STEP_BUDGET_MS - STEP_SAFETY_MS)
          { env := .abortErr d2 :: env2, now := now0
            job := { job2 with status := .running, updatedAtMs := now0 }
            trace := [] } =
          .thrown { env := env2, now := now0 + d2
                    job := { job2 with
                               status := .running
                               updatedAtMs := now0
                               contactCache := []
                               consecutiveAbortErrors :=
                                 job2.consecutiveAbortErrors + 1 }
                    trace := [⟨.contactsSearch,
                      (now0 + STEP_BUDGET_MS - STEP_SAFETY_MS) - now0⟩] }
            .abortE := by
        unfold stepTry
        rw [hwarm2]
        simp only [bindFlow]
        rw [hcd2]
        simp only [bindFlow]
        rw [hcp]
      obtain ⟨hjob, -⟩ := stepJob_thrown (.abortErr d2 :: env2) now0 job2 _ _ hst
      rw [hjob]
      exact ⟨rfl, rfl⟩
  · intro dl2 s s1 remaining hph hok
    unfold contactsPhase
    rw [if_pos hph]
    by_cases hr : remaining = 0
    · simp [hok, Flow.state, hr]
    · simp [hok, Flow.state, hr]
  · decide

/-- Witness for `soft_retry_amended`: a job mid-conversations with a
warm admin cache and counter 1 survives an aborted page fetch with
counter 2 and status `running`; with counter 2 a further abort fails
the job; a warm-up abort on a cache-less job errors at counter 0; a
contacts-phase abort at counter 1 ends the step at counter 2 still in
`contacts`; and the concrete finalize-refresh abort leaves the counter
at 0. -/
theorem soft_retry_amended_witness :
    let job1 : Job := { createJob "c3" 0 30 none with
                          status := .running
                          adminCache := some (0, [])
                          consecutiveAbortErrors := 1 }
    let job2 : Job := { job1 with consecutiveAbortErrors := 2 }
    let job3 : Job := { createJob "c4" 0 30 none with
                          status := .running
                          phase := .contacts
                          adminCache := some (0, [])
                          memberIds := ["m1"]
                          consecutiveAbortErrors := 1 }
    ((stepJob [.abortErr 100] 0 job1).job.status = .running ∧
      (stepJob [.abortErr 100] 0 job1).job.phase = .conversations ∧
      (stepJob [.abortErr 100] 0 job1).job.consecutiveAbortErrors = 2) ∧
    ((stepJob [.abortErr 100] 0 job2).job.status = .error ∧
      (stepJob [.abortErr 100] 0 job2).job.phase = .complete) ∧
    (stepJob [.abortErr 100] 0 (createJob "c2w" 0 30 none)).job.consecutiveAbortErrors = 0 ∧
    ((stepJob [.abortErr 100] 0 job3).job.status = .running ∧
      (stepJob [.abortErr 100] 0 job3).job.phase = .contacts ∧
      (stepJob [.abortErr 100] 0 job3).job.consecutiveAbortErrors = 2) ∧
    (stepJob cexEnvC2fin 1000000 cexJobC2fin).job.consecutiveAbortErrors = 0 := by
  intro job1 job2 job3
  have h1 := soft_retry_amended [] 100 0 0 job1 [] (by decide) (by decide)
    (by decide)
  have h2 := soft_retry_amended [] 100 0 0 job2 [] (by decide) (by decide)
    (by decide)
  refine ⟨h1.1 (by decide), h2.2.1 (by decide),
    (h1.2.2.2.1 [] 100 (createJob "c2w" 0 30 none) (by decide)).2, ?_, ?_⟩
  · exact (h1.2.2.2.2.1 [] 100 0 [] "m1" job3 (by decide) (by decide) (by decide)
      (by decide) (by decide) (by decide)).1 (by decide)
  · exact h1.2.2.2.2.2.2.2.1

end Caseload
